import Mathlib

/-!
Verification of the nxt-opds catalog subsystem.

This file gives a shallow embedding, in Lean 4, of the catalog core of the
nxt-opds personal eBook server: the shared data model (`internal/catalog`),
the in-memory filesystem backend (`internal/backend/fs`), the SQLite backend
(`internal/backend/sqlite`), and the EPUB helper package (`internal/epub`).
Pure Go functions become Lean functions; the stateful backends become explicit
state-passing functions on state records; SQL statements are embedded by their
evaluation semantics on a relational-state model; `time.Time` instants are
embedded as integers (Unix seconds) and the wall clock is passed explicitly.
Theorems at the end settle the specification claims against these definitions.
-/

namespace NxtOpds

/-! ## Shared data model (internal/catalog/catalog.go)

`catalog.Author`, `catalog.File`, `catalog.Book`, `catalog.SearchQuery` and
`catalog.BookUpdate` are translated field by field.  Instants (`time.Time`)
become `Int` (Unix seconds); `time.After` becomes `>` on `Int`. -/

/-- Author mirrors catalog.Author: a publication author with name and URI. -/
structure Author where
  name : String
  uri : String
deriving Repr, DecidableEq, Inhabited

/-- File mirrors catalog.File: a downloadable file of a book. -/
structure File where
  mimeType : String
  path : String
  size : Int
deriving Repr, DecidableEq, Inhabited

/-- Book mirrors catalog.Book: the central aggregate of the catalog. -/
structure Book where
  id : String
  title : String
  authors : List Author
  summary : String
  language : String
  publisher : String
  publishedAt : Int
  updatedAt : Int
  tags : List String
  files : List File
  coverURL : String
  thumbnailURL : String
  series : String
  seriesIndex : String
  seriesTotal : String
  isRead : Bool
  rating : Int
  addedAt : Int
deriving Repr, DecidableEq, Inhabited

/-- SearchQuery mirrors catalog.SearchQuery.  Offset and limit are `Nat`
(the Go handlers always pass non-negative ints). -/
structure SearchQuery where
  query : String
  author : String
  tag : String
  language : String
  unreadOnly : Bool
  series : String
  sortBy : String
  sortOrder : String
  offset : Nat
  limit : Nat
deriving Repr, DecidableEq, Inhabited

/-- BookUpdate mirrors catalog.BookUpdate: each field is independently
absent (`none`, Go nil pointer / nil slice) or present. -/
structure BookUpdate where
  title : Option String
  authors : Option (List String)
  tags : Option (List String)
  summary : Option String
  publisher : Option String
  language : Option String
  series : Option String
  seriesIndex : Option String
  seriesTotal : Option String
  isRead : Option Bool
  rating : Option Int
deriving Repr, DecidableEq, Inhabited

/-! ## String and path helpers

Models of the Go standard-library functions the backends use:
`strings.ToLower` (ASCII case only, which is all the claims exercise),
`strings.Contains`, `path/filepath.Ext`, `path/filepath.Base` and
`path/filepath.Join` (Unix separators, as on the target platform). -/

/-- ASCII lower-casing of one character (strings.ToLower restricted to ASCII). -/
def lowerChar (c : Char) : Char :=
  if 'A' ≤ c ∧ c ≤ 'Z' then Char.ofNat (c.toNat + 32) else c

/-- ASCII lower-casing of a string, as a character list. -/
def lowerStr (s : String) : List Char :=
  s.data.map lowerChar

/-- Containment of `sub` inside `s` (strings.Contains s sub). -/
def containsSub (s sub : List Char) : Bool :=
  decide (sub <:+: s)

/-- Helper for `fpExt`: walk the reversed character list from the end of the
path; collect characters until the last dot (returning dot plus collected) or
until a separator or the start (returning empty). -/
def extOfRev (acc : List Char) : List Char → List Char
  | [] => []
  | c :: rest =>
    if c = '/' then []
    else if c = '.' then '.' :: acc
    else extOfRev (c :: acc) rest

/-- Model of filepath.Ext: the suffix beginning at the final dot in the final
path element, empty if there is none. -/
def fpExt (s : String) : String :=
  String.mk (extOfRev [] s.data.reverse)

/-- Model of filepath.Base: the last element of the path, after stripping
trailing separators; "." for the empty path, "/" for all-separator paths. -/
def fpBase (s : String) : String :=
  if s.data = [] then "."
  else
    let r := s.data.reverse.dropWhile (fun c => c = '/')
    if r = [] then "/"
    else String.mk ((r.takeWhile (fun c => c ≠ '/')).reverse)

/-- Model of filepath.Join for a clean directory and a clean base name. -/
def fpJoin (dir name : String) : String :=
  dir ++ "/" ++ name

/-! ## Sorting helper

Both backends sort book lists: the fs backend with Go `sort.Slice` (whose
small-slice case is insertion sort, stable on ties), the SQLite backend via
SQL ORDER BY over a multi-column key.  Both are embedded as
`List.insertionSort` with respect to a key into a linearly ordered type. -/

/-- Ordering of `α` by a key into a linearly ordered type. -/
def keyRel {α : Type} {κ : Type} [LinearOrder κ] (k : α → κ) : α → α → Prop :=
  fun a b => k a ≤ k b

instance {α κ : Type} [LinearOrder κ] (k : α → κ) : DecidableRel (keyRel k) :=
  fun a b => inferInstanceAs (Decidable (k a ≤ k b))

instance {α κ : Type} [LinearOrder κ] (k : α → κ) : IsTotal α (keyRel k) :=
  ⟨fun a b => le_total (k a) (k b)⟩

instance {α κ : Type} [LinearOrder κ] (k : α → κ) : IsTrans α (keyRel k) :=
  ⟨fun _ _ _ h h' => le_trans h h'⟩

/-- Sort a list by a key, ascending; stable (insertion sort). -/
def sortByKey {α κ : Type} [LinearOrder κ] (k : α → κ) (l : List α) : List α :=
  List.insertionSort (keyRel k) l

theorem sortByKey_sorted {α κ : Type} [LinearOrder κ] (k : α → κ) (l : List α) :
    List.Sorted (keyRel k) (sortByKey k l) :=
  List.sorted_insertionSort _ l

theorem sortByKey_perm {α κ : Type} [LinearOrder κ] (k : α → κ) (l : List α) :
    (sortByKey k l).Perm l :=
  List.perm_insertionSort _ l

theorem mem_sortByKey {α κ : Type} [LinearOrder κ] (k : α → κ) (l : List α) (a : α) :
    a ∈ sortByKey k l ↔ a ∈ l :=
  (sortByKey_perm k l).mem_iff

/-- A `find?` over a list with a unique satisfying member returns that member. -/
theorem find?_eq_of_unique {α : Type} {p : α → Bool} {l : List α} {b : α}
    (hb : b ∈ l) (hpb : p b = true) (huniq : ∀ x ∈ l, p x = true → x = b) :
    l.find? p = some b := by
  induction l with
  | nil => cases hb
  | cons a t ih =>
    by_cases hpa : p a = true
    · have : a = b := huniq a (List.mem_cons_self a t) hpa
      subst this
      simp [List.find?, hpa]
    · have hab : b ≠ a := fun h => hpa (h ▸ hpb)
      have hbt : b ∈ t := by
        rcases List.mem_cons.mp hb with h | h
        · exact absurd h.symm (Ne.symm hab)
        · exact h
      simp only [List.find?, Bool.not_eq_true] at hpa ⊢
      rw [hpa]
      exact ih hbt (fun x hx hpx => huniq x (List.mem_cons_of_mem a hx) hpx)

/-! ## SHA-256 (crypto/sha256) and PathToID (internal/epub/epub.go)

`epub.PathToID` computes `sha256.Sum256([]byte(path))` and formats the first
8 bytes with `%x` (lowercase hex).  The hash is embedded bit-faithfully over
`Nat` byte lists, with 32-bit words represented as naturals reduced mod 2^32.
Strings are converted to bytes by UTF-8 encoding, as Go `[]byte(path)` does. -/

/-- UTF-8 encoding of one character, as Go produces for []byte(string). -/
def utf8Char (c : Char) : List Nat :=
  let n := c.toNat
  if n < 128 then [n]
  else if n < 2048 then [192 ||| (n >>> 6), 128 ||| (n &&& 63)]
  else if n < 65536 then
    [224 ||| (n >>> 12), 128 ||| ((n >>> 6) &&& 63), 128 ||| (n &&& 63)]
  else
    [240 ||| (n >>> 18), 128 ||| ((n >>> 12) &&& 63),
     128 ||| ((n >>> 6) &&& 63), 128 ||| (n &&& 63)]

/-- UTF-8 bytes of a string ([]byte conversion in Go). -/
def utf8Bytes (s : String) : List Nat :=
  s.data.flatMap utf8Char

/-- The 32-bit modulus. -/
def M32 : Nat := 4294967296

/-- Right rotation of a 32-bit word. -/
def rotr (n x : Nat) : Nat :=
  ((x >>> n) ||| (x <<< (32 - n))) % M32

/-- SHA-256 choice function. -/
def shaCh (x y z : Nat) : Nat :=
  (x &&& y) ^^^ ((x ^^^ 4294967295) &&& z)

/-- SHA-256 majority function. -/
def shaMaj (x y z : Nat) : Nat :=
  (x &&& y) ^^^ (x &&& z) ^^^ (y &&& z)

/-- SHA-256 big sigma-0. -/
def bigS0 (x : Nat) : Nat := rotr 2 x ^^^ rotr 13 x ^^^ rotr 22 x

/-- SHA-256 big sigma-1. -/
def bigS1 (x : Nat) : Nat := rotr 6 x ^^^ rotr 11 x ^^^ rotr 25 x

/-- SHA-256 small sigma-0. -/
def smallS0 (x : Nat) : Nat := rotr 7 x ^^^ rotr 18 x ^^^ (x >>> 3)

/-- SHA-256 small sigma-1. -/
def smallS1 (x : Nat) : Nat := rotr 17 x ^^^ rotr 19 x ^^^ (x >>> 10)

/-- SHA-256 round constants. -/
def shaK : List Nat :=
  [1116352408, 1899447441, 3049323471, 3921009573, 961987163, 1508970993,
   2453635748, 2870763221, 3624381080, 310598401, 607225278, 1426881987,
   1925078388, 2162078206, 2614888103, 3248222580, 3835390401, 4022224774,
   264347078, 604807628, 770255983, 1249150122, 1555081692, 1996064986,
   2554220882, 2821834349, 2952996808, 3210313671, 3336571891, 3584528711,
   113926993, 338241895, 666307205, 773529912, 1294757372, 1396182291,
   1695183700, 1986661051, 2177026350, 2456956037, 2730485921, 2820302411,
   3259730800, 3345764771, 3516065817, 3600352804, 4094571909, 275423344,
   430227734, 506948616, 659060556, 883997877, 958139571, 1322822218,
   1537002063, 1747873779, 1955562222, 2024104815, 2227730452, 2361852424,
   2428436474, 2756734187, 3204031479, 3329325298]

/-- Big-endian 8-byte encoding of a natural (the message bit length). -/
def be64 (n : Nat) : List Nat :=
  [(n >>> 56) % 256, (n >>> 48) % 256, (n >>> 40) % 256, (n >>> 32) % 256,
   (n >>> 24) % 256, (n >>> 16) % 256, (n >>> 8) % 256, n % 256]

/-- SHA-256 padding: append 0x80, zeros to 56 mod 64, then the bit length. -/
def shaPad (msg : List Nat) : List Nat :=
  let r := (msg.length + 1) % 64
  let k := (120 - r) % 64
  msg ++ [128] ++ List.replicate k 0 ++ be64 (8 * msg.length)

/-- Split a byte list into chunks of 64 (structural recursion on a fuel
bound so that the definition reduces in the kernel; the fuel `l.length`
always suffices since every step consumes at least one byte). -/
def chunks64Aux : Nat → List Nat → List (List Nat)
  | 0, _ => []
  | _, [] => []
  | fuel + 1, c :: rest => ((c :: rest).take 64) :: chunks64Aux fuel ((c :: rest).drop 64)

/-- Split a byte list into chunks of 64. -/
def chunks64 (l : List Nat) : List (List Nat) :=
  chunks64Aux l.length l

/-- Big-endian combination of 4 bytes into one 32-bit word. -/
def word4 : List Nat → List Nat
  | b0 :: b1 :: b2 :: b3 :: rest =>
    (((b0 <<< 24) + (b1 <<< 16) + (b2 <<< 8) + b3) % M32) :: word4 rest
  | _ => []

/-- SHA-256 working state: eight 32-bit words. -/
structure Sha8 where
  a : Nat
  b : Nat
  c : Nat
  d : Nat
  e : Nat
  f : Nat
  g : Nat
  h : Nat
deriving Repr, DecidableEq

/-- SHA-256 initial hash value. -/
def shaH0 : Sha8 :=
  ⟨1779033703, 3144134277, 1013904242, 2773480762,
   1359893119, 2600822924, 528734635, 1541459225⟩

/-- One compression round given the round constant and schedule word. -/
def shaRound (st : Sha8) (kc wt : Nat) : Sha8 :=
  let t1 := (st.h + bigS1 st.e + shaCh st.e st.f st.g + kc + wt) % M32
  let t2 := (bigS0 st.a + shaMaj st.a st.b st.c) % M32
  ⟨(t1 + t2) % M32, st.a, st.b, st.c, (st.d + t1) % M32, st.e, st.f, st.g⟩

/-- Sliding window of the last 16 message-schedule words (w[i-16] .. w[i-1]). -/
structure W16 where
  x0 : Nat
  x1 : Nat
  x2 : Nat
  x3 : Nat
  x4 : Nat
  x5 : Nat
  x6 : Nat
  x7 : Nat
  x8 : Nat
  x9 : Nat
  x10 : Nat
  x11 : Nat
  x12 : Nat
  x13 : Nat
  x14 : Nat
  x15 : Nat
deriving Repr, DecidableEq

/-- Shift the schedule window, appending the newest word. -/
def wShift (w : W16) (nw : Nat) : W16 :=
  ⟨w.x1, w.x2, w.x3, w.x4, w.x5, w.x6, w.x7, w.x8,
   w.x9, w.x10, w.x11, w.x12, w.x13, w.x14, w.x15, nw⟩

/-- Rounds 0..15: consume the 16 chunk words while loading the window. -/
def shaRounds1 : Sha8 → W16 → List Nat → List Nat → Sha8 × W16 × List Nat
  | st, w, ks, [] => (st, w, ks)
  | st, w, [], _ => (st, w, [])
  | st, w, kc :: ks, wt :: wts => shaRounds1 (shaRound st kc wt) (wShift w wt) ks wts

/-- Rounds 16..63: extend the schedule from the window
(w[i] = sigma1 w[i-2] + w[i-7] + sigma0 w[i-15] + w[i-16]) and compress. -/
def shaRounds2 : Sha8 → W16 → List Nat → Sha8
  | st, _, [] => st
  | st, w, kc :: ks =>
    let nw := (smallS1 w.x14 + w.x9 + smallS0 w.x1 + w.x0) % M32
    shaRounds2 (shaRound st kc nw) (wShift w nw) ks

/-- Process one 64-byte chunk: 64 rounds then feed-forward addition. -/
def shaChunk (st : Sha8) (chunk : List Nat) : Sha8 :=
  let z : W16 := ⟨0, 0, 0, 0, 0, 0, 0, 0, 0, 0, 0, 0, 0, 0, 0, 0⟩
  let r1 := shaRounds1 st z shaK (word4 chunk)
  let r := shaRounds2 r1.1 r1.2.1 r1.2.2
  ⟨(st.a + r.a) % M32, (st.b + r.b) % M32, (st.c + r.c) % M32, (st.d + r.d) % M32,
   (st.e + r.e) % M32, (st.f + r.f) % M32, (st.g + r.g) % M32, (st.h + r.h) % M32⟩

/-- Big-endian bytes of one 32-bit word. -/
def wordBytes (w : Nat) : List Nat :=
  [(w >>> 24) % 256, (w >>> 16) % 256, (w >>> 8) % 256, w % 256]

/-- SHA-256 digest (32 bytes) of a byte list (crypto/sha256 Sum256). -/
def sha256 (msg : List Nat) : List Nat :=
  let st := (chunks64 (shaPad msg)).foldl shaChunk shaH0
  wordBytes st.a ++ wordBytes st.b ++ wordBytes st.c ++ wordBytes st.d ++
  wordBytes st.e ++ wordBytes st.f ++ wordBytes st.g ++ wordBytes st.h

/-- Lowercase hex digit for a nibble. -/
def hexChar (n : Nat) : Char :=
  if n < 10 then Char.ofNat (48 + n) else Char.ofNat (87 + n)

/-- Two lowercase hex digits of one byte (fmt %x). -/
def byteHex (b : Nat) : List Char :=
  [hexChar (b / 16), hexChar (b % 16)]

/-- Lowercase hex string of a byte list (fmt %x on a byte slice). -/
def hexStr (bs : List Nat) : String :=
  String.mk (bs.flatMap byteHex)

/-- PathToID mirrors epub.PathToID: lowercase hex of the first 8 bytes of the
SHA-256 digest of the path bytes. -/
def PathToID (path : String) : String :=
  hexStr ((sha256 (utf8Bytes path)).take 8)

/-- Known-answer test: SHA-256 of the empty message (FIPS 180 vector). -/
theorem sha256_empty_vector :
    hexStr (sha256 []) =
      "e3b0c44298fc1c149afbf4c8996fb92427ae41e4649b934ca495991b7852b855" := by
  decide

/-- Known-answer test: SHA-256 of "abc" (FIPS 180 vector). -/
theorem sha256_abc_vector :
    hexStr (sha256 (utf8Bytes "abc")) =
      "ba7816bf8f01cfea414140de5dae2223b00361a396177a9cb410ff61f20015ad" := by
  decide

/-! ## Memory (filesystem) backend (internal/backend/fs/fs.go)

The backend state is the book list plus the override map; the derived
`byID` map is embedded as a lookup over the list (later entries win, as
later Go map stores overwrite earlier ones), and the derived author/tag
bucket maps are not modelled (no claim reads them).  Disk scanning
(`filepath.WalkDir` + `epub.ParseBook`/`epub.ParsePath`) is embedded as a
walk-ordered path list plus a parse oracle `parse : String → Option Book`
giving the book parsed from each file (`none` for an EPUB that fails to
parse; `ParsePath` never fails). -/

/-- metaOverride mirrors fs.metaOverride: nil pointer / nil slice = absent. -/
structure metaOverride where
  title : Option String
  authors : Option (List String)
  tags : Option (List String)
  summary : Option String
  publisher : Option String
  language : Option String
  series : Option String
  seriesIndex : Option String
  seriesTotal : Option String
  isRead : Option Bool
deriving Repr, DecidableEq, Inhabited

namespace Fs

/-- State of the fs backend: the book vector and the override map. -/
structure State where
  books : List Book
  overrides : String → Option metaOverride

/-- Lookup in the derived byID map: the last book in vector order with the
given id (later map stores overwrite earlier ones). -/
def byIDLookup (books : List Book) (id : String) : Option Book :=
  books.reverse.find? (fun b => b.id == id)

/-- mergeOverride mirrors fs.mergeOverride: each present override field
replaces the corresponding book field (authors become name-only records),
each absent field leaves the parsed value. -/
def mergeOverride (bk : Book) (ov : metaOverride) : Book :=
  { bk with
    title := ov.title.getD bk.title
    authors := match ov.authors with
      | some names => names.map (fun n => ⟨n, ""⟩)
      | none => bk.authors
    tags := ov.tags.getD bk.tags
    summary := ov.summary.getD bk.summary
    publisher := ov.publisher.getD bk.publisher
    language := ov.language.getD bk.language
    series := ov.series.getD bk.series
    seriesIndex := ov.seriesIndex.getD bk.seriesIndex
    seriesTotal := ov.seriesTotal.getD bk.seriesTotal
    isRead := ov.isRead.getD bk.isRead }

/-- applyOverride mirrors fs.Backend.applyOverride. -/
def applyOverride (ovs : String → Option metaOverride) (bk : Book) : Book :=
  match ovs bk.id with
  | some ov => mergeOverride bk ov
  | none => bk

/-- Merging of an update into an override record, as in fs.Backend.UpdateBook:
present update fields replace the stored override field. -/
def mergeUpdate (ov : metaOverride) (u : BookUpdate) : metaOverride :=
  { title := (u.title.map some).getD ov.title
    authors := (u.authors.map some).getD ov.authors
    tags := (u.tags.map some).getD ov.tags
    summary := (u.summary.map some).getD ov.summary
    publisher := (u.publisher.map some).getD ov.publisher
    language := (u.language.map some).getD ov.language
    series := (u.series.map some).getD ov.series
    seriesIndex := (u.seriesIndex.map some).getD ov.seriesIndex
    seriesTotal := (u.seriesTotal.map some).getD ov.seriesTotal
    isRead := (u.isRead.map some).getD ov.isRead }

/-- UpdateBook mirrors fs.Backend.UpdateBook: not-found is an error; otherwise
the update is merged into the override record, the in-memory book is replaced
by its override-merged value with `updatedAt` stamped, and the new book is
returned.  (`u.rating` is not merged: fs.metaOverride has no rating field.) -/
def UpdateBook (st : State) (id : String) (u : BookUpdate) (now : Int) :
    Except String (Book × State) :=
  match byIDLookup st.books id with
  | none => .error "book not found"
  | some _ =>
    let ov1 := mergeUpdate ((st.overrides id).getD default) u
    let ovs' : String → Option metaOverride :=
      fun x => if x = id then some ov1 else st.overrides x
    let stamp : Book → Book := fun b => { mergeOverride b ov1 with updatedAt := now }
    let books' := st.books.map (fun b => if b.id = id then stamp b else b)
    match byIDLookup books' id with
    | some bk => .ok (bk, { books := books', overrides := ovs' })
    | none => .error "book not found"

/-- One step of an update sequence; a failed update leaves the state alone. -/
def applyUpdate (st : State) (u : String × BookUpdate × Int) : State :=
  match UpdateBook st u.1 u.2.1 u.2.2 with
  | .ok r => r.2
  | .error _ => st

/-- A sequence of UpdateBook calls. -/
def applyUpdates (st : State) (us : List (String × BookUpdate × Int)) : State :=
  us.foldl applyUpdate st

/-- Extension check of the reconciler walk: `.epub` or `.pdf`, case-insensitive. -/
def isCatalogPath (p : String) : Bool :=
  let e := lowerStr (fpExt p)
  e = ".epub".data || e = ".pdf".data

/-- The walk of the library root: parse every .epub/.pdf file in walk order,
skipping EPUBs that fail to parse (fs.Backend.Refresh walk closure). -/
def scanBooks (parse : String → Option Book) (paths : List String) : List Book :=
  (paths.filter isCatalogPath).filterMap parse

/-- Refresh book list: scan, merge persisted overrides onto each parsed book,
and sort newest-first by `addedAt` (sort.Slice with After; stable on ties). -/
def refreshBooks (ovs : String → Option metaOverride) (parse : String → Option Book)
    (paths : List String) : List Book :=
  let merged := (scanBooks parse paths).map (applyOverride ovs)
  sortByKey (fun b : Book => -b.addedAt) merged

/-- Refresh mirrors fs.Backend.Refresh: rebuild the book vector and derived
maps from disk; the override map is left untouched. -/
def Refresh (parse : String → Option Book) (paths : List String) (st : State) : State :=
  { books := refreshBooks st.overrides parse paths, overrides := st.overrides }

/-- AllBooks mirrors fs.Backend.AllBooks: the slice books[offset:end] where
end = min (offset+limit) total, plus the total vector length. -/
def AllBooks (st : State) (offset limit : Nat) : List Book × Nat :=
  let total := st.books.length
  if total ≤ offset then ([], total)
  else ((st.books.drop offset).take (min (offset + limit) total - offset), total)

/-- The match test of fs.Backend.Search: empty query matches everything,
otherwise case-insensitive substring on the title or any author name. -/
def searchHit (q : String) (bk : Book) : Bool :=
  q == "" || containsSub (lowerStr bk.title) (lowerStr q) ||
    bk.authors.any (fun a => containsSub (lowerStr a.name) (lowerStr q))

/-- The filter pass of fs.Backend.Search (unread filter applied first). -/
def searchMatched (st : State) (q : SearchQuery) : List Book :=
  st.books.filter (fun bk => !(q.unreadOnly && bk.isRead) && searchHit q.query bk)

/-- The re-sort pass of fs.Backend.Search: only `title` (both directions) and
`added` ascending re-sort; anything else keeps catalog order. -/
def searchSorted (q : SearchQuery) (matched : List Book) : List Book :=
  if q.sortBy = "title" then
    if q.sortOrder = "asc" then sortByKey (fun b : Book => lowerStr b.title) matched
    else sortByKey (fun b : Book => OrderDual.toDual (lowerStr b.title)) matched
  else if q.sortBy = "added" && q.sortOrder = "asc" then
    sortByKey (fun b : Book => b.addedAt) matched
  else matched

/-- The pagination of fs.Backend.Search: offset past the end yields nothing;
end = total when offset+limit overruns or when limit = 0. -/
def paginate (offset limit : Nat) (l : List Book) : List Book :=
  let total := l.length
  if total ≤ offset then []
  else
    let e := if total < offset + limit || limit = 0 then total else offset + limit
    (l.drop offset).take (e - offset)

/-- Search mirrors fs.Backend.Search. -/
def Search (st : State) (q : SearchQuery) : List Book × Nat :=
  let m := searchMatched st q
  (paginate q.offset q.limit (searchSorted q m), m.length)

end Fs

/-! ## Upload path (fs.Backend.StoreBook and sqlite.Backend.StoreBook)

Both backends run the same upload sequence up to and including the atomic
rename: sanitize the name, check the extension, refuse duplicates, write the
stream to a fresh `.upload-*.tmp` file (removed by defer on every exit path),
close, rename.  Each fallible step is driven by an explicit environment; the
filesystem is the set of paths that exist, and the index is the backend's
book collection (only its preservation matters to the claims). -/

/-- Errors of the upload path, in program order. -/
inductive UploadErr where
  | unsupportedType
  | duplicate
  | tempFail
  | copyFail
  | closeFail
  | renameFail
  | parseFail
deriving Repr, DecidableEq

/-- Outcome of each fallible step of the upload, plus the parse result of the
uploaded file (`none` models an EPUB parse failure after the rename). -/
structure UploadEnv where
  tempOk : Bool
  copyOk : Bool
  closeOk : Bool
  renameOk : Bool
  parsed : Option Book
deriving Repr, DecidableEq

/-- Filesystem-and-index state seen by the upload path. -/
structure UpState where
  files : List String
  index : List Book
deriving Repr, DecidableEq

/-- StoreBook mirrors the shared upload sequence of fs.Backend.StoreBook and
sqlite.Backend.StoreBook.  The temp file (whose generated name ends in
`.tmp`, never equal to the destination) is created and removed inside the
call on every non-renamed path, so only the destination membership is
tracked.  On success the parsed book is indexed (backend-specific indexing
of the new book does not matter to the upload claims). -/
def StoreBook (env : UploadEnv) (st : UpState) (root rawName : String) :
    (Except UploadErr Book) × UpState :=
  if lowerStr (fpExt (fpBase rawName)) = ".epub".data ∨
      lowerStr (fpExt (fpBase rawName)) = ".pdf".data then
    if fpJoin root (fpBase rawName) ∈ st.files then (.error .duplicate, st)
    else if env.tempOk = false then (.error .tempFail, st)
    else if env.copyOk = false then (.error .copyFail, st)
    else if env.closeOk = false then (.error .closeFail, st)
    else if env.renameOk = false then (.error .renameFail, st)
    else
      match env.parsed with
      | none =>
        (.error .parseFail, { st with files := fpJoin root (fpBase rawName) :: st.files })
      | some bk =>
        (.ok bk, { files := fpJoin root (fpBase rawName) :: st.files, index := bk :: st.index })
  else (.error .unsupportedType, st)

/-! ## SQLite LIKE and CAST AS REAL

`sqlite.Backend.Search` filters with `LOWER(x) LIKE '%' || lower(query) || '%'`
(no ESCAPE clause), so `%` and `_` inside the query act as wildcards; and
`sortClause` orders `series_index` by `CAST(b.series_index AS REAL)`.  LIKE
matching is embedded over character lists; CAST AS REAL is embedded as the
rational value of the longest leading (sign, digits, optional fraction)
numeric literal, which covers the decimal series-index strings the catalog
stores ("1", "2.5", ...). -/

/-- SQLite LIKE pattern matching: `%` matches any sequence (any suffix via
`tails`), `_` matches exactly one character, anything else matches itself. -/
def likeMatch : List Char → List Char → Bool
  | [], s => s.isEmpty
  | c :: p, s =>
    if c = '%' then s.tails.any (fun t => likeMatch p t)
    else
      match s with
      | [] => false
      | d :: t => if c = '_' then likeMatch p t else c = d && likeMatch p t

/-- Decimal digit test. -/
def isDigitC (c : Char) : Bool := '0' ≤ c && c ≤ '9'

/-- Value of a digit string. -/
def natOfDigits (ds : List Char) : Nat :=
  ds.foldl (fun a c => a * 10 + (c.toNat - 48)) 0

/-- CAST(text AS REAL): optional sign, integer digits, optional fraction;
everything after the numeric literal is ignored; no digits means 0.  The
value sgn * (ip + fp / 10^len) is built with `mkRat` so that comparisons
reduce computationally. -/
def castReal (s : String) : ℚ :=
  let l := s.data.dropWhile (fun c => c = ' ')
  let sgn : Int := if l.head? = some '-' then -1 else 1
  let l := if l.head? = some '-' ∨ l.head? = some '+' then l.tail else l
  let ip := l.takeWhile isDigitC
  let l := l.dropWhile isDigitC
  let fp := if l.head? = some '.' then l.tail.takeWhile isDigitC else []
  mkRat (sgn * (natOfDigits ip * 10 ^ fp.length + natOfDigits fp)) (10 ^ fp.length)

/-! ## SQLite backend (internal/backend/sqlite/sqlite.go)

The books table (with its author and tag child rows) is embedded as a list of
`Book` records, unique by primary-key id, keyed on `file_path` through the
book's single file entry.  ORDER BY clauses become key sorts; LIMIT/OFFSET
become `take`/`drop` (SQLite returns no rows for LIMIT 0). -/

namespace Sq

/-- The `file_path` column of a row. -/
def filePath (b : Book) : String :=
  ((b.files.head?).map File.path).getD ""

/-- Sort key of `ORDER BY added_at DESC, LOWER(title)`. -/
def addedDescKey (b : Book) : Int ×ₗ List Char :=
  toLex (-b.addedAt, lowerStr b.title)

/-- Sort key of `ORDER BY b.added_at ASC, LOWER(b.title)`. -/
def addedAscKey (b : Book) : Int ×ₗ List Char :=
  toLex (b.addedAt, lowerStr b.title)

/-- Sort key of `ORDER BY CAST(b.series_index AS REAL), b.series_index,
LOWER(b.title)` (text comparison is bytewise BINARY collation). -/
def seriesKey (b : Book) : ℚ ×ₗ (List Char ×ₗ List Char) :=
  toLex (castReal b.seriesIndex, toLex (b.seriesIndex.data, lowerStr b.title))

/-- The ORDER BY of sqlite.sortClause, applied to a row list.  Note that the
`series_index` clause carries no direction: `sortOrder` is ignored there. -/
def sortBooks (q : SearchQuery) (l : List Book) : List Book :=
  if q.sortBy = "series_index" then sortByKey seriesKey l
  else if q.sortBy = "title" then
    if q.sortOrder = "desc" then sortByKey (fun b : Book => OrderDual.toDual (lowerStr b.title)) l
    else sortByKey (fun b : Book => lowerStr b.title) l
  else if q.sortOrder = "asc" then sortByKey addedAscKey l
  else sortByKey addedDescKey l

/-- AllBooks mirrors sqlite.Backend.AllBooks: COUNT(*) plus
`ORDER BY added_at DESC, LOWER(title) LIMIT ? OFFSET ?`. -/
def AllBooks (db : List Book) (offset limit : Nat) : List Book × Nat :=
  (((sortByKey addedDescKey db).drop offset).take limit, db.length)

/-- The extra WHERE clauses of sqlite.Backend.Search
(`b.is_read = 0` and `b.series = ?`). -/
def rowKept (q : SearchQuery) (b : Book) : Bool :=
  (!q.unreadOnly || !b.isRead) && (q.series == "" || b.series == q.series)

/-- The LIKE pattern `"%" + strings.ToLower(q.Query) + "%"`. -/
def likePat (q : String) : List Char :=
  '%' :: (lowerStr q ++ ['%'])

/-- The LIKE condition of sqlite.Backend.Search: lowered title, or some
author row's lowered name, matches the pattern. -/
def likeHit (q : String) (b : Book) : Bool :=
  likeMatch (likePat q) (lowerStr b.title) ||
    b.authors.any (fun a => likeMatch (likePat q) (lowerStr a.name))

/-- The match set of sqlite.Backend.Search for a query. -/
def searchMatched (db : List Book) (q : SearchQuery) : List Book :=
  if q.query = "" then db.filter (rowKept q)
  else db.filter (fun b => likeHit q.query b && rowKept q b)

/-- Search mirrors sqlite.Backend.Search: count the matched rows (DISTINCT
ids; rows are unique by primary key), then sort, offset and limit them. -/
def Search (db : List Book) (q : SearchQuery) : List Book × Nat :=
  let m := searchMatched db q
  (((sortBooks q m).drop q.offset).take q.limit, m.length)

/-- insertBook mirrors sqlite.Backend.insertBook at row granularity:
INSERT OR IGNORE leaves the table alone when the id already exists.
(The child-row side effects of an ignored insert are not modelled; the
reconciliation theorems assume fresh ids, under which they cannot occur.) -/
def insertBook (db : List Book) (bk : Book) : List Book :=
  if db.any (fun r => r.id == bk.id) then db else db ++ [bk]

/-- The on-disk path set collected by the reconciler walk. -/
def onDiskPaths (paths : List String) : List String :=
  paths.filter Fs.isCatalogPath

/-- The newly discovered books of one reconciler pass: on-disk paths not yet
indexed, parsed (EPUB parse failures are skipped). -/
def refreshNew (parse : String → Option Book) (paths : List String) (db : List Book) :
    List Book :=
  ((onDiskPaths paths).filter (fun p => !(db.map filePath).contains p)).filterMap parse

/-- The ids scheduled for deletion: rows whose recorded file path is gone
(captured from the pre-insert snapshot of the table). -/
def refreshStaleIds (paths : List String) (db : List Book) : List String :=
  (db.filter (fun b => !(onDiskPaths paths).contains (filePath b))).map Book.id

/-- Refresh mirrors sqlite.Backend.Refresh: collect the on-disk catalog
paths; parse and insert those not yet indexed (skipping EPUBs that fail to
parse); then delete every row whose recorded file path is no longer on disk
(deletion is by the id captured in the pre-insert snapshot). -/
def Refresh (parse : String → Option Book) (paths : List String) (db : List Book) :
    List Book :=
  ((refreshNew parse paths db).foldl insertBook db).filter
    (fun b => !(refreshStaleIds paths db).contains b.id)

end Sq

/-! ## Backup engine (sqlite.Backend.Backup, sqlite.pruneBackups)

The destination directory is a duplicate-free list of file names.  The wall
clock is an explicit broken-down local time, formatted exactly as Go's
`Format("20060102-150405")` does for in-range fields.  `os.ReadDir` returns
entries sorted by name; `VACUUM INTO` fails if the destination exists;
`pruneBackups` failure (ReadDir error) is driven by a flag. -/

/-- Broken-down local time for the backup timestamp. -/
structure Clock where
  year : Nat
  month : Nat
  day : Nat
  hour : Nat
  minute : Nat
  second : Nat
deriving Repr, DecidableEq

/-- Decimal digits of a natural (most significant first), on fuel. -/
def decDigitsAux : Nat → Nat → List Char
  | 0, _ => []
  | fuel + 1, n =>
    if n < 10 then [Char.ofNat (48 + n)]
    else decDigitsAux fuel (n / 10) ++ [Char.ofNat (48 + n % 10)]

/-- Decimal digits of a natural. -/
def decDigits (n : Nat) : List Char :=
  decDigitsAux (n + 1) n

/-- Zero-padded fixed-width decimal (Go time layout "2006", "01", ...). -/
def padNum (w n : Nat) : List Char :=
  List.replicate (w - (decDigits n).length) '0' ++ decDigits n

/-- The backup file name `"catalog-" + Format("20060102-150405") + ".db"`. -/
def backupName (c : Clock) : String :=
  String.mk ("catalog-".data ++ padNum 4 c.year ++ padNum 2 c.month ++ padNum 2 c.day
    ++ ['-'] ++ padNum 2 c.hour ++ padNum 2 c.minute ++ padNum 2 c.second ++ ".db".data)

/-- The prune filter of sqlite.pruneBackups:
`len(n) >= 8 && n[:8] == "catalog-" && filepath.Ext(n) == ".db"`. -/
def isBackupFile (n : String) : Bool :=
  decide (8 ≤ n.data.length) && n.data.take 8 = "catalog-".data && fpExt n = ".db"

/-- pruneBackups mirrors sqlite.pruneBackups: list the directory sorted by
name, keep only the most recent `keep` matching files, removing the rest. -/
def pruneBackups (dir : List String) (keep : Nat) : List String :=
  let backups := (sortByKey String.data dir).filter isBackupFile
  if keep < backups.length then
    let old := backups.take (backups.length - keep)
    dir.filter (fun f => !old.contains f)
  else dir

/-- Backup mirrors sqlite.Backend.Backup: vacuum into the timestamped name
(failing if it exists), then prune when `keep > 0`; a prune failure is
returned alongside the already-produced backup path. -/
def Backup (dir : List String) (keep : Int) (c : Clock) (pruneOk : Bool) :
    (String × Option String) × List String :=
  if backupName c ∈ dir then (("", some "vacuum failed"), dir)
  else if 0 < keep then
    if pruneOk then ((backupName c, none), pruneBackups (backupName c :: dir) keep.toNat)
    else ((backupName c, some "prune backups"), backupName c :: dir)
  else ((backupName c, none), backupName c :: dir)

/-! ## Schema migration (sqlite.migrateSchema, sqlite.migration1)

The relational store is embedded at DDL granularity: a table is a column
list (with the default used by additive column adds) plus rows as
column-value association lists; the schema version is the user_version
pragma.  CREATE TABLE IF NOT EXISTS keeps an existing table; ALTER TABLE
ADD COLUMN appends the column with its default to every row, and the
duplicate-column error of a re-add is swallowed (modelled as a no-op). -/

namespace Mig

/-- A stored value. -/
inductive Val where
  | int (n : Int)
  | text (s : String)
  | null
deriving Repr, DecidableEq

/-- A row: column name to value. -/
abbrev Row := List (String × Val)

/-- A table: columns (with defaults) and rows. -/
structure Table where
  cols : List (String × Val)
  rows : List Row
deriving Repr, DecidableEq

/-- The database: user_version plus the three catalog tables. -/
structure DB where
  userVersion : Nat
  books : Option Table
  bookAuthors : Option Table
  bookTags : Option Table
deriving Repr, DecidableEq

/-- Column lookup in a row (first match). -/
def rowVal (r : Row) (c : String) : Option Val :=
  (r.find? (fun x => x.1 == c)).map (fun x => x.2)

/-- CREATE TABLE IF NOT EXISTS. -/
def createIfMissing (t : Option Table) (cols : List (String × Val)) : Option Table :=
  match t with
  | some t => some t
  | none => some ⟨cols, []⟩

/-- ALTER TABLE ADD COLUMN with the duplicate-column error swallowed. -/
def addColumnIgnoreDup (t : Table) (c : String) (d : Val) : Table :=
  if t.cols.any (fun x => x.1 == c) then t
  else ⟨t.cols ++ [(c, d)], t.rows.map (fun r => r ++ [(c, d)])⟩

/-- Columns of the books table as created by migration1 (defaults from the
DDL; NOT NULL columns without a DEFAULT clause carry `null` here, which is
never consulted because freshly created tables have no rows). -/
def booksCols : List (String × Val) :=
  [("id", .null), ("title", .text ""), ("summary", .text ""), ("language", .text ""),
   ("publisher", .text ""), ("published_at", .null), ("updated_at", .null),
   ("added_at", .int 0), ("series", .text ""), ("series_index", .text ""),
   ("series_total", .text ""), ("is_read", .int 0), ("rating", .int 0),
   ("cover_url", .text ""), ("thumbnail_url", .text ""), ("file_path", .null),
   ("file_mime", .text ""), ("file_size", .int 0)]

/-- Columns of the book_authors table as created by migration1. -/
def authorsCols : List (String × Val) :=
  [("book_id", .null), ("author_name", .null), ("author_uri", .text ""), ("position", .int 0)]

/-- Columns of the book_tags table as created by migration1. -/
def tagsCols : List (String × Val) :=
  [("book_id", .null), ("tag", .null)]

/-- migration1 mirrors sqlite.migration1: CREATE ... IF NOT EXISTS for the
three tables (indexes carry no row-level semantics and are not modelled),
then the three safe additive column adds with duplicate errors swallowed. -/
def migration1 (db : DB) : DB :=
  let db := { db with
    books := createIfMissing db.books booksCols
    bookAuthors := createIfMissing db.bookAuthors authorsCols
    bookTags := createIfMissing db.bookTags tagsCols }
  match db.books with
  | none => db
  | some t =>
    let t := addColumnIgnoreDup t "added_at" (.int 0)
    let t := addColumnIgnoreDup t "series_total" (.text "")
    let t := addColumnIgnoreDup t "rating" (.int 0)
    { db with books := some t }

/-- The ordered migration list (currentSchemaVersion = 1). -/
def schemaMigrations : List (Nat × (DB → DB)) :=
  [(1, migration1)]

/-- The latest schema version this binary expects. -/
def currentSchemaVersion : Nat := 1

/-- migrateSchema mirrors sqlite.Backend.migrateSchema: read user_version
once, apply each migration with a larger version in order, setting
user_version after each one. -/
def migrateSchema (db : DB) : DB :=
  let v0 := db.userVersion
  schemaMigrations.foldl
    (fun acc m => if m.1 ≤ v0 then acc else { m.2 acc with userVersion := m.1 }) db

end Mig

/-! ## Specification-side order relations and concrete fixtures

The two order relations below transcribe the ordering the specification
prescribes (they are deliberately written from the spec text, to be compared
against the orderings the code actually produces); the fixtures are concrete
inputs used by witnesses and counterexamples. -/

/-- Order required by the spec for `all_books`: `added_at` descending, ties
broken by title ascending case-insensitively. -/
def specDefaultLe (a b : Book) : Prop :=
  b.addedAt < a.addedAt ∨ (a.addedAt = b.addedAt ∧ lowerStr a.title ≤ lowerStr b.title)

instance : DecidableRel specDefaultLe :=
  fun a b => inferInstanceAs (Decidable (_ ∨ _ ∧ _))

/-- Order required by the spec for `search` with sort_by = series_index and
sort_order = asc: numeric on the stored text cast to a real, ties by title. -/
def specSeriesAscLe (a b : Book) : Prop :=
  castReal a.seriesIndex < castReal b.seriesIndex ∨
    (castReal a.seriesIndex = castReal b.seriesIndex ∧ lowerStr a.title ≤ lowerStr b.title)

instance : DecidableRel specSeriesAscLe :=
  fun a b => inferInstanceAs (Decidable (_ ∨ _ ∧ _))

/-- Concrete book constructor for witnesses and counterexamples. -/
def mkBook (id title : String) (addedAt : Int) (si : String) (isRead : Bool)
    (authors : List String) : Book :=
  { id := id, title := title, authors := authors.map (fun n => ⟨n, ""⟩),
    summary := "", language := "", publisher := "", publishedAt := 0,
    updatedAt := 0, tags := [], files := [⟨"application/epub+zip", "/" ++ id ++ ".epub", 1⟩],
    coverURL := "", thumbnailURL := "", series := "", seriesIndex := si,
    seriesTotal := "", isRead := isRead, rating := 0, addedAt := addedAt }

/-- Search query with only the commonly exercised fields set. -/
def mkQuery (query : String) (unreadOnly : Bool) (sortBy sortOrder : String)
    (offset limit : Nat) : SearchQuery :=
  { query := query, author := "", tag := "", language := "", unreadOnly := unreadOnly,
    series := "", sortBy := sortBy, sortOrder := sortOrder, offset := offset, limit := limit }

/-- One hundred distinct library paths used to exhibit collision-freeness of
PathToID in practice. -/
def testPaths : List String :=
  (List.range 100).map (fun i => "/books/" ++ toString i ++ ".epub")

/-- The PathToID images of `testPaths`, precomputed (checked by `rfl` below). -/
def testIDs : List String :=
  ["18dc94a0b8c49a5a", "8f242d0ec9c801e7", "e961dffade9ed8c7", "25ebb7d40cd292c7",
   "9e079addbc049781", "ed53b4c60cc50194", "4abec3a89cdbb2f2", "51e8de057a6bf741",
   "56e954838b3fb5cf", "f6f399f25d614a04", "661cc320674231a5", "0fea51e82c016c36",
   "f2d70dc47e220a70", "0f2f28b15b082dd1", "29e4bdf68c957ff9", "b56d9a73510ca79c",
   "aa71ace0136dd144", "b31eacde7b510284", "279fd2a24060df93", "d13db57bbb94469b",
   "ee536d37e4d04704", "ece9fcbe07a926f9", "894452b10df811d7", "ed0625a1a437c2b3",
   "e36a3fe3941e636b", "2e2abe552e4b1b2a", "ba0fe225262efb77", "624de6626d3eb88f",
   "840c87caea3fa90a", "76ee9e68332c0eaa", "411e0c97e47a9f29", "0227af48a1712ca8",
   "86476772311aacf8", "dd6fa4169a979be1", "2673db62c132abdb", "0558bfc786c5ec40",
   "abf2b69b92d49a21", "0ddd224ac97c3644", "7c9debff23001fd9", "da9727747273ddfc",
   "e825a892f2041742", "e1f9ad220559cc4b", "e78ecf1961d62af8", "84bc9c52857ae39e",
   "2263e54c06835293", "a975ce353408342e", "03491282ff16b295", "5d4b50b9da7f5f0c",
   "e4d10a30b54ace98", "46e4f1a91d8aa750", "6d476b74e9cfffa3", "6f2aa6f88f1524c8",
   "ec1e8478b969127b", "1a5c1cd2350c3f73", "513d009eceecae84", "9e168d29e664c03d",
   "7b70a3fcbb69eee7", "5d0916a9c5a869c1", "ffe24b56ce890096", "3c9bea073a206c76",
   "6577cc252581ed5e", "9eaf6c85687bed06", "bf4f89081857e13d", "348095671db6faf0",
   "a9152f803f7dbcc8", "f09351b716ed8902", "ac697b21ea69b9bb", "a0cea3928d050e34",
   "d6febe55245f15cb", "6e47ee000c939c96", "def65dc0d1d55ec2", "e9fbfc4c4c57998f",
   "83aac0313d0a7286", "9cac8294f3e32176", "32e2582d6319a53c", "e902c608975bd265",
   "4a2c97260c7b999d", "938fef4d74d928b0", "d324e099875778c6", "480654cc1099dc8d",
   "77ee4e192f9b5036", "10f0c10e574b9c5d", "4410d7daed44e999", "6c9ab71882dbb8b0",
   "06dfee15a891051e", "02e9f3419b33eb7b", "02858747a4b1dc5c", "b307629335929055",
   "63ac0ede17d1f664", "35ddb35db69ce750", "9e69c51a62f14c71", "940a5e1e6b77edc9",
   "a7a188d0f16d2c0f", "f587ba9fa3a8973e", "b03e55bcfa8d0d0e", "e14f15d6686f0287",
   "712d3d614abc5e5c", "f7d57d26fade988a", "501a7604783df1bc", "c602875abe4db87d"]

/-- Lowercase hexadecimal digit test. -/
def isLowerHex (c : Char) : Bool :=
  ('0' ≤ c && c ≤ '9') || ('a' ≤ c && c ≤ 'f')

/-- All characters are decimal digits. -/
def allDigits (l : List Char) : Bool :=
  l.all isDigitC


/-! # Theorems

General lemmas first, then one theorem per specification claim (with its
witness or counterexample where required). -/

/-- A window (drop then take) of a key-sorted list is sorted. -/
theorem sorted_window {α κ : Type} [LinearOrder κ] (k : α → κ) {l : List α}
    (h : List.Sorted (keyRel k) l) (off lim : Nat) :
    List.Sorted (keyRel k) ((l.drop off).take lim) :=
  List.Pairwise.sublist ((List.take_sublist _ _).trans (List.drop_sublist _ _)) h

/-- The sqlite default order key orders exactly as the spec prescribes for
all_books: added_at descending, ties by lowercased title ascending. -/
theorem keyRel_addedDesc_iff (a b : Book) :
    keyRel Sq.addedDescKey a b ↔ specDefaultLe a b := by
  unfold keyRel Sq.addedDescKey specDefaultLe
  rw [Prod.Lex.le_iff]
  constructor
  · rintro (h | ⟨h1, h2⟩)
    · exact Or.inl (by omega)
    · exact Or.inr ⟨by omega, h2⟩
  · rintro (h | ⟨h1, h2⟩)
    · exact Or.inl (by omega)
    · exact Or.inr ⟨by omega, h2⟩

/-- The numeric component of the series sort key is monotone: the sqlite
series ordering never puts a larger cast value before a smaller one. -/
theorem keyRel_seriesKey_cast_le (a b : Book) (h : keyRel Sq.seriesKey a b) :
    castReal a.seriesIndex ≤ castReal b.seriesIndex := by
  unfold keyRel Sq.seriesKey at h
  rw [Prod.Lex.le_iff] at h
  rcases h with h | ⟨h1, _⟩
  · exact le_of_lt h
  · exact le_of_eq h1

/-- Pagination with limit zero in fs.Backend.Search keeps everything from the
offset onward. -/
theorem fs_paginate_limit_zero (off : Nat) (l : List Book) :
    Fs.paginate off 0 l = l.drop off := by
  unfold Fs.paginate
  by_cases hc : l.length ≤ off
  · simp [hc, List.drop_eq_nil_of_le hc]
  · have hlt : off < l.length := Nat.lt_of_not_le hc
    simp only [hc, if_false, Nat.add_zero, if_pos (Or.inr rfl)]
    exact List.take_of_length_le (by simp)

/-- C10: on the memory backend a limit of 0 means unlimited for search
(everything from the offset onward is returned) but empty for all_books;
in both cases the returned total is the full match count. -/
theorem C10_limit_zero_inconsistency (st : Fs.State) (q : SearchQuery) (off : Nat)
    (hq : q.limit = 0) :
    Fs.Search st q = ((Fs.searchSorted q (Fs.searchMatched st q)).drop q.offset,
      (Fs.searchMatched st q).length) ∧
    Fs.AllBooks st off 0 = ([], st.books.length) := by
  constructor
  · show (Fs.paginate q.offset q.limit (Fs.searchSorted q (Fs.searchMatched st q)),
      (Fs.searchMatched st q).length) = _
    rw [hq, fs_paginate_limit_zero]
  · unfold Fs.AllBooks
    by_cases hc : st.books.length ≤ off
    · simp [hc]
    · simp only [hc, if_false]
      have hlt : off < st.books.length := Nat.lt_of_not_le hc
      have hmin : min (off + 0) st.books.length = off := by omega
      simp [hmin]

/-- Witness for C10 at a concrete two-book state. -/
theorem C10_limit_zero_inconsistency_witness :
    Fs.Search ⟨[mkBook "b1" "one" 5 "" false [], mkBook "b2" "two" 4 "" false []],
        fun _ => none⟩ (mkQuery "" false "" "" 1 0) =
      ([mkBook "b2" "two" 4 "" false []], 2) ∧
    Fs.AllBooks ⟨[mkBook "b1" "one" 5 "" false [], mkBook "b2" "two" 4 "" false []],
        fun _ => none⟩ 1 0 = ([], 2) := by
  have h := C10_limit_zero_inconsistency
    ⟨[mkBook "b1" "one" 5 "" false [], mkBook "b2" "two" 4 "" false []], fun _ => none⟩
    (mkQuery "" false "" "" 1 0) 1 rfl
  exact ⟨h.1.trans (by decide), h.2.trans (by decide)⟩

/-- C4: evaluation showing the divergence between the documented substring
search and the sqlite LIKE implementation: the query "a%b" is not a substring
of the title "axb" (and the memory backend finds nothing), yet the sqlite
backend matches it because the unescaped `%` acts as a LIKE wildcard. -/
theorem C4_like_wildcard_eval :
    (Sq.Search [mkBook "x" "axb" 0 "" false []] (mkQuery "a%b" false "" "" 0 10)).2 = 1 ∧
    (Sq.Search [mkBook "x" "axb" 0 "" false []] (mkQuery "a%b" false "" "" 0 10)).1.map
      Book.title = ["axb"] ∧
    containsSub (lowerStr "axb") (lowerStr "a%b") = false ∧
    (Fs.Search ⟨[mkBook "x" "axb" 0 "" false []], fun _ => none⟩
      (mkQuery "a%b" false "" "" 0 10)) = ([], 0) := by
  refine ⟨by decide, by decide, by decide, by decide⟩

/-- Fixture: parse oracle of a two-file library whose books tie on addedAt;
walk order puts the title "zzz" (series index "2") first. -/
def twoParse : String → Option Book := fun p =>
  if p = "/x1.epub" then some (mkBook "b1" "zzz" 5 "2" false [])
  else if p = "/x2.epub" then some (mkBook "b2" "aaa" 5 "1" false [])
  else none

/-- Fixture: the walk-ordered paths of the two-file library. -/
def twoPaths : List String := ["/x1.epub", "/x2.epub"]

/-- Fixture: the fs backend state after scanning the two-file library. -/
def twoState : Fs.State := Fs.Refresh twoParse twoPaths ⟨[], fun _ => none⟩

/-- C3 counterexample: after a refresh of a library whose two books share an
addedAt instant, the memory backend returns them in walk order ("zzz" before
"aaa"), so all_books is not tie-broken by title ascending as the claim
states for both backends. -/
theorem C3_fs_no_title_tiebreak_cex :
    (Fs.AllBooks twoState 0 50).1.map Book.title = ["zzz", "aaa"] ∧
    ¬ List.Sorted specDefaultLe (Fs.AllBooks twoState 0 50).1 := by
  refine ⟨by decide, by decide⟩

/-- C3 (amended): all_books returns total = the full book count independent
of offset and limit on both backends; the sqlite backend's list is sorted by
added_at descending with ties broken by lowercased title ascending; the
memory backend's list is sorted by added_at descending only. -/
theorem C3_allBooks_order_amended (db : List Book) (off lim : Nat)
    (parse : String → Option Book) (paths : List String) (st0 : Fs.State) :
    List.Sorted specDefaultLe (Sq.AllBooks db off lim).1 ∧
    (Sq.AllBooks db off lim).2 = db.length ∧
    List.Sorted (keyRel (fun b : Book => -b.addedAt))
      (Fs.AllBooks (Fs.Refresh parse paths st0) off lim).1 ∧
    (Fs.AllBooks (Fs.Refresh parse paths st0) off lim).2 =
      (Fs.Refresh parse paths st0).books.length := by
  refine ⟨?_, rfl, ?_, ?_⟩
  · have hs : List.Sorted (keyRel Sq.addedDescKey) (Sq.AllBooks db off lim).1 :=
      sorted_window _ (sortByKey_sorted Sq.addedDescKey db) off lim
    exact hs.imp (fun h => (keyRel_addedDesc_iff _ _).mp h)
  · unfold Fs.AllBooks
    by_cases hc : (Fs.Refresh parse paths st0).books.length ≤ off
    · simp [hc]
    · simp only [hc, if_false]
      exact sorted_window _ (sortByKey_sorted _ _) off _
  · unfold Fs.AllBooks
    by_cases hc : (Fs.Refresh parse paths st0).books.length ≤ off
    · simp [hc]
    · simp [hc]

/-- C9 counterexample: on the memory backend, search with sort_by =
series_index and sort_order = asc returns the matches in default catalog
order; with series indexes "2" then "1" the result is not numerically
ascending, so the claim fails for the memory backend. -/
theorem C9_fs_series_sort_cex :
    (Fs.Search twoState (mkQuery "" false "series_index" "asc" 0 50)).1.map
      Book.seriesIndex = ["2", "1"] ∧
    ¬ List.Sorted specSeriesAscLe
      (Fs.Search twoState (mkQuery "" false "series_index" "asc" 0 50)).1 := by
  refine ⟨by decide, by decide⟩

/-- C9 (amended): the sqlite backend orders series_index searches by
CAST(series_index AS REAL) ascending (ties by the raw text, then by
lowercased title) regardless of the requested sort_order, so the cast values
are never descending; the memory backend ignores sort_by = series_index
entirely and returns the matches in default catalog order. -/
theorem C9_series_sort_amended (db : List Book) (q : SearchQuery) (st : Fs.State)
    (hq : q.sortBy = "series_index") :
    List.Sorted (keyRel Sq.seriesKey) (Sq.Search db q).1 ∧
    (∀ a b : Book, keyRel Sq.seriesKey a b →
      castReal a.seriesIndex ≤ castReal b.seriesIndex) ∧
    (Fs.Search st q).1 = Fs.paginate q.offset q.limit (Fs.searchMatched st q) ∧
    (Sq.Search db q).2 = (Sq.searchMatched db q).length := by
  refine ⟨?_, keyRel_seriesKey_cast_le, ?_, rfl⟩
  · unfold Sq.Search Sq.sortBooks
    simp only [hq, if_pos rfl]
    exact sorted_window _ (sortByKey_sorted _ _) _ _
  · simp [Fs.Search, Fs.searchSorted, hq]

/-- Witness for C9 (amended) at the concrete two-book library. -/
theorem C9_series_sort_amended_witness :
    List.Sorted (keyRel Sq.seriesKey)
      (Sq.Search [mkBook "b1" "zzz" 5 "2" false [], mkBook "b2" "aaa" 5 "1" false []]
        (mkQuery "" false "series_index" "desc" 0 50)).1 ∧
    (Fs.Search twoState (mkQuery "" false "series_index" "desc" 0 50)).1 =
      Fs.paginate 0 50 (Fs.searchMatched twoState
        (mkQuery "" false "series_index" "desc" 0 50)) :=
  ⟨(C9_series_sort_amended
      [mkBook "b1" "zzz" 5 "2" false [], mkBook "b2" "aaa" 5 "1" false []]
      (mkQuery "" false "series_index" "desc" 0 50) twoState rfl).1,
   (C9_series_sort_amended
      [mkBook "b1" "zzz" 5 "2" false [], mkBook "b2" "aaa" 5 "1" false []]
      (mkQuery "" false "series_index" "desc" 0 50) twoState rfl).2.2.1⟩


/-- C5: the upload path rejects non-.epub/.pdf extensions (case-insensitive,
after stripping path components) with an unsupported-type error, rejects an
existing destination name as a duplicate, and on every failure before the
atomic rename — including a stream failing mid-copy — leaves the filesystem
without the destination file and the index unchanged.  (Only a parse failure
happens after the rename; it deliberately leaves the uploaded file.) -/
theorem C5_upload_atomicity (env : UploadEnv) (st : UpState) (root rawName : String) :
    (¬ (lowerStr (fpExt (fpBase rawName)) = ".epub".data ∨
        lowerStr (fpExt (fpBase rawName)) = ".pdf".data) →
      StoreBook env st root rawName = (.error .unsupportedType, st)) ∧
    ((lowerStr (fpExt (fpBase rawName)) = ".epub".data ∨
        lowerStr (fpExt (fpBase rawName)) = ".pdf".data) →
      fpJoin root (fpBase rawName) ∈ st.files →
      StoreBook env st root rawName = (.error .duplicate, st)) ∧
    ((lowerStr (fpExt (fpBase rawName)) = ".epub".data ∨
        lowerStr (fpExt (fpBase rawName)) = ".pdf".data) →
      fpJoin root (fpBase rawName) ∉ st.files → env.tempOk = true → env.copyOk = false →
      StoreBook env st root rawName = (.error .copyFail, st)) ∧
    (∀ e, (StoreBook env st root rawName).1 = .error e → e ≠ .parseFail →
      (StoreBook env st root rawName).2 = st) ∧
    (∀ e, (StoreBook env st root rawName).1 = .error e → e ≠ .unsupportedType →
      e ≠ .duplicate → e ≠ .parseFail →
      fpJoin root (fpBase rawName) ∉ (StoreBook env st root rawName).2.files ∧
      (StoreBook env st root rawName).2.index = st.index) := by
  by_cases h1 : lowerStr (fpExt (fpBase rawName)) = ".epub".data ∨
      lowerStr (fpExt (fpBase rawName)) = ".pdf".data
  · by_cases h2 : fpJoin root (fpBase rawName) ∈ st.files
    · have hS : StoreBook env st root rawName = (.error .duplicate, st) := by
        unfold StoreBook; rw [if_pos h1, if_pos h2]
      refine ⟨fun hc => absurd h1 hc, fun _ _ => hS, fun _ hnd => absurd h2 hnd,
        fun e _ _ => by rw [hS], fun e he _ hd _ => ?_⟩
      rw [hS] at he
      simp only [Except.error.injEq] at he
      exact absurd he.symm hd
    · by_cases ht : env.tempOk = false
      · have hS : StoreBook env st root rawName = (.error .tempFail, st) := by
          unfold StoreBook; rw [if_pos h1, if_neg h2, if_pos ht]
        refine ⟨fun hc => absurd h1 hc, fun _ hd => absurd hd h2,
          fun _ _ hte _ => Bool.noConfusion (ht.symm.trans hte),
          fun e _ _ => by rw [hS], fun e he _ _ _ => ?_⟩
        rw [hS]
        exact ⟨h2, rfl⟩
      · by_cases hc : env.copyOk = false
        · have hS : StoreBook env st root rawName = (.error .copyFail, st) := by
            unfold StoreBook; rw [if_pos h1, if_neg h2, if_neg ht, if_pos hc]
          refine ⟨fun hx => absurd h1 hx, fun _ hd => absurd hd h2, fun _ _ _ _ => hS,
            fun e _ _ => by rw [hS], fun e he _ _ _ => ?_⟩
          rw [hS]
          exact ⟨h2, rfl⟩
        · by_cases hcl : env.closeOk = false
          · have hS : StoreBook env st root rawName = (.error .closeFail, st) := by
              unfold StoreBook; rw [if_pos h1, if_neg h2, if_neg ht, if_neg hc, if_pos hcl]
            refine ⟨fun hx => absurd h1 hx, fun _ hd => absurd hd h2,
              fun _ _ _ hco => absurd hco hc,
              fun e _ _ => by rw [hS], fun e he _ _ _ => ?_⟩
            rw [hS]
            exact ⟨h2, rfl⟩
          · by_cases hr : env.renameOk = false
            · have hS : StoreBook env st root rawName = (.error .renameFail, st) := by
                unfold StoreBook
                rw [if_pos h1, if_neg h2, if_neg ht, if_neg hc, if_neg hcl, if_pos hr]
              refine ⟨fun hx => absurd h1 hx, fun _ hd => absurd hd h2,
                fun _ _ _ hco => absurd hco hc,
                fun e _ _ => by rw [hS], fun e he _ _ _ => ?_⟩
              rw [hS]
              exact ⟨h2, rfl⟩
            · cases hp : env.parsed with
              | none =>
                have hS : StoreBook env st root rawName =
                    (.error .parseFail,
                     { st with files := fpJoin root (fpBase rawName) :: st.files }) := by
                  unfold StoreBook
                  rw [if_pos h1, if_neg h2, if_neg ht, if_neg hc, if_neg hcl, if_neg hr, hp]
                refine ⟨fun hx => absurd h1 hx, fun _ hd => absurd hd h2,
                  fun _ _ _ hco => absurd hco hc, fun e he hne => ?_, fun e he _ _ hne => ?_⟩
                · rw [hS] at he
                  simp only [Except.error.injEq] at he
                  exact absurd he.symm hne
                · rw [hS] at he
                  simp only [Except.error.injEq] at he
                  exact absurd he.symm hne
              | some bk =>
                have hS : StoreBook env st root rawName =
                    (.ok bk, { files := fpJoin root (fpBase rawName) :: st.files,
                               index := bk :: st.index }) := by
                  unfold StoreBook
                  rw [if_pos h1, if_neg h2, if_neg ht, if_neg hc, if_neg hcl, if_neg hr, hp]
                refine ⟨fun hx => absurd h1 hx, fun _ hd => absurd hd h2,
                  fun _ _ _ hco => absurd hco hc, fun e he _ => ?_, fun e he _ _ _ => ?_⟩
                · rw [hS] at he
                  cases he
                · rw [hS] at he
                  cases he
  · have hS : StoreBook env st root rawName = (.error .unsupportedType, st) := by
      unfold StoreBook; rw [if_neg h1]
    refine ⟨fun _ => hS, fun hx => absurd hx h1, fun hx => absurd hx h1,
      fun e _ _ => by rw [hS], fun e he hu _ _ => ?_⟩
    rw [hS] at he
    simp only [Except.error.injEq] at he
    exact absurd he.symm hu

/-- Witness for C5: a bad extension, a duplicate and a truncated stream each
produce the claimed outcome on a concrete state. -/
theorem C5_upload_atomicity_witness :
    StoreBook ⟨true, true, true, true, none⟩ ⟨["/lib/a.epub"], []⟩ "/lib" "x.txt" =
      (.error .unsupportedType, ⟨["/lib/a.epub"], []⟩) ∧
    StoreBook ⟨true, true, true, true, none⟩ ⟨["/lib/a.epub"], []⟩ "/lib" "dir/a.epub" =
      (.error .duplicate, ⟨["/lib/a.epub"], []⟩) ∧
    StoreBook ⟨true, false, true, true, none⟩ ⟨["/lib/a.epub"], []⟩ "/lib" "b.pdf" =
      (.error .copyFail, ⟨["/lib/a.epub"], []⟩) := by
  refine ⟨?_, ?_, ?_⟩
  · exact (C5_upload_atomicity ⟨true, true, true, true, none⟩ ⟨["/lib/a.epub"], []⟩
      "/lib" "x.txt").1 (by decide)
  · exact (C5_upload_atomicity ⟨true, true, true, true, none⟩ ⟨["/lib/a.epub"], []⟩
      "/lib" "dir/a.epub").2.1 (by decide) (by decide)
  · exact (C5_upload_atomicity ⟨true, false, true, true, none⟩ ⟨["/lib/a.epub"], []⟩
      "/lib" "b.pdf").2.2.1 (by decide) (by decide) rfl rfl


/-- Merging an override never changes the book id. -/
theorem mergeOverride_id (b : Book) (o : metaOverride) :
    (Fs.mergeOverride b o).id = b.id := rfl

/-- Applying the override map never changes the book id. -/
theorem applyOverride_id (ovs : String → Option metaOverride) (b : Book) :
    (Fs.applyOverride ovs b).id = b.id := by
  unfold Fs.applyOverride
  cases h : ovs b.id
  · rfl
  · rfl

/-- byID lookup of a book whose id occurs exactly once returns that book. -/
theorem byIDLookup_unique {books : List Book} {b : Book}
    (hb : b ∈ books) (huniq : ∀ x ∈ books, x.id = b.id → x = b) :
    Fs.byIDLookup books b.id = some b := by
  unfold Fs.byIDLookup
  apply find?_eq_of_unique (List.mem_reverse.mpr hb)
  · exact beq_iff_eq.mpr rfl
  · intro x hx hpx
    exact huniq x (List.mem_reverse.mp hx) (beq_iff_eq.mp hpx)

/-- C1: after any sequence of UpdateBook calls followed by a Refresh, every
override record in the override store is reflected in the book returned for
its id: the stored book is exactly the freshly parsed book merged with the
override, in which every present field (including empty strings and empty
lists) replaces the parsed value and every absent field passes the parsed
value through. -/
theorem C1_override_reflected (st0 : Fs.State) (us : List (String × BookUpdate × Int))
    (parse : String → Option Book) (paths : List String) (id : String)
    (ov : metaOverride) (bk : Book)
    (hov : (Fs.applyUpdates st0 us).overrides id = some ov)
    (hbk : bk ∈ Fs.scanBooks parse paths) (hid : bk.id = id)
    (hnd : ((Fs.scanBooks parse paths).map Book.id).Nodup) :
    Fs.byIDLookup (Fs.Refresh parse paths (Fs.applyUpdates st0 us)).books id =
      some (Fs.mergeOverride bk ov) ∧
    (Fs.mergeOverride bk ov).title = ov.title.getD bk.title ∧
    (Fs.mergeOverride bk ov).authors = (match ov.authors with
      | some ns => ns.map (fun n => ⟨n, ""⟩)
      | none => bk.authors) ∧
    (Fs.mergeOverride bk ov).tags = ov.tags.getD bk.tags ∧
    (Fs.mergeOverride bk ov).summary = ov.summary.getD bk.summary ∧
    (Fs.mergeOverride bk ov).publisher = ov.publisher.getD bk.publisher ∧
    (Fs.mergeOverride bk ov).language = ov.language.getD bk.language ∧
    (Fs.mergeOverride bk ov).series = ov.series.getD bk.series ∧
    (Fs.mergeOverride bk ov).seriesIndex = ov.seriesIndex.getD bk.seriesIndex ∧
    (Fs.mergeOverride bk ov).seriesTotal = ov.seriesTotal.getD bk.seriesTotal ∧
    (Fs.mergeOverride bk ov).isRead = ov.isRead.getD bk.isRead := by
  refine ⟨?_, rfl, rfl, rfl, rfl, rfl, rfl, rfl, rfl, rfl, rfl⟩
  have hmb : Fs.applyOverride (Fs.applyUpdates st0 us).overrides bk = Fs.mergeOverride bk ov := by
    unfold Fs.applyOverride
    rw [hid, hov]
  have hbooks : (Fs.Refresh parse paths (Fs.applyUpdates st0 us)).books
      = sortByKey (fun b : Book => -b.addedAt)
          ((Fs.scanBooks parse paths).map
            (Fs.applyOverride (Fs.applyUpdates st0 us).overrides)) := rfl
  have hmem : Fs.mergeOverride bk ov ∈ (Fs.Refresh parse paths (Fs.applyUpdates st0 us)).books := by
    rw [hbooks, mem_sortByKey]
    exact List.mem_map.mpr ⟨bk, hbk, hmb⟩
  have huniq : ∀ x ∈ (Fs.Refresh parse paths (Fs.applyUpdates st0 us)).books,
      x.id = (Fs.mergeOverride bk ov).id → x = Fs.mergeOverride bk ov := by
    intro x hx hxid
    rw [hbooks, mem_sortByKey] at hx
    obtain ⟨y, hy, hxy⟩ := List.mem_map.mp hx
    rw [mergeOverride_id, hid] at hxid
    have hyid : y.id = id := by
      rw [← hxy, applyOverride_id] at hxid
      exact hxid
    have hybk : y = bk := List.inj_on_of_nodup_map hnd hy hbk (by rw [hyid, hid])
    rw [← hxy, hybk, hmb]
  have hlk := byIDLookup_unique hmem huniq
  rw [mergeOverride_id, hid] at hlk
  exact hlk

/-- Witness for C1: one update renaming a book and overriding its tags is
reflected in the book a subsequent Refresh indexes for that id. -/
theorem C1_override_reflected_witness :
    Fs.byIDLookup (Fs.Refresh
        (fun p => if p = "/w.epub" then some (mkBook "w" "Original" 3 "" false []) else none)
        ["/w.epub"]
        (Fs.applyUpdates ⟨[mkBook "w" "Original" 3 "" false []], fun _ => none⟩
          [("w", ⟨some "Renamed", none, some ["fiction"], none, none, none, none, none,
            none, none, none⟩, 7)])).books "w" =
      some { mkBook "w" "Original" 3 "" false [] with
              title := "Renamed", tags := ["fiction"] } :=
  (C1_override_reflected
    ⟨[mkBook "w" "Original" 3 "" false []], fun _ => none⟩
    [("w", ⟨some "Renamed", none, some ["fiction"], none, none, none, none, none,
      none, none, none⟩, 7)]
    (fun p => if p = "/w.epub" then some (mkBook "w" "Original" 3 "" false []) else none)
    ["/w.epub"] "w"
    ⟨some "Renamed", none, some ["fiction"], none, none, none, none, none, none, none⟩
    (mkBook "w" "Original" 3 "" false [])
    (by decide) (by decide) rfl (by decide)).1.trans (by decide)


/-- contains agrees with membership. -/
theorem contains_iff {α : Type} [BEq α] [LawfulBEq α] {l : List α} {a : α} :
    l.contains a = true ↔ a ∈ l :=
  List.elem_iff

/-- Rows already present survive any sequence of INSERT OR IGNOREs. -/
theorem mem_foldl_insertBook (nb : List Book) (db : List Book) (x : Book)
    (hx : x ∈ db) : x ∈ nb.foldl Sq.insertBook db := by
  induction nb generalizing db with
  | nil => exact hx
  | cons n rest ih =>
    rw [List.foldl_cons]
    apply ih
    unfold Sq.insertBook
    by_cases h : db.any (fun r => r.id == n.id) = true
    · rw [if_pos h]; exact hx
    · rw [if_neg h]; exact List.mem_append_left _ hx

/-- When the inserted rows have pairwise distinct ids, all fresh for the
table, INSERT OR IGNORE appends them in order. -/
theorem foldl_insertBook_eq_append (nb : List Book) (db : List Book)
    (hnd : (nb.map Book.id).Nodup) (hfr : ∀ n ∈ nb, ∀ r ∈ db, n.id ≠ r.id) :
    nb.foldl Sq.insertBook db = db ++ nb := by
  induction nb generalizing db with
  | nil => simp
  | cons n rest ih =>
    have hins : Sq.insertBook db n = db ++ [n] := by
      unfold Sq.insertBook
      have hany : db.any (fun r => r.id == n.id) = false := by
        rw [List.any_eq_false]
        intro r hr hbe
        exact hfr n (List.mem_cons_self n rest) r hr (beq_iff_eq.mp hbe).symm
      rw [hany]
      simp
    rw [List.foldl_cons, hins]
    have hnd' : (rest.map Book.id).Nodup := by
      simp only [List.map_cons, List.nodup_cons] at hnd
      exact hnd.2
    have hhead : n.id ∉ rest.map Book.id := by
      simp only [List.map_cons, List.nodup_cons] at hnd
      exact hnd.1
    have hfr' : ∀ m ∈ rest, ∀ r ∈ db ++ [n], m.id ≠ r.id := by
      intro m hm r hr
      rcases List.mem_append.mp hr with h | h
      · exact hfr m (List.mem_cons_of_mem _ hm) r h
      · have : r = n := List.mem_singleton.mp h
        subst this
        intro hmeq
        exact hhead (hmeq ▸ List.mem_map_of_mem Book.id hm)
    rw [ih (db ++ [n]) hnd' hfr']
    simp

/-- C2: one reconciler pass of the sqlite backend keeps every row whose file
is still on disk unchanged (metadata and overrides live in that row), removes
every row whose file is gone, inserts the newly discovered parses, and a
second pass over the same disk state returns the same table; the memory
backend's Refresh is likewise idempotent on a fixed disk state. -/
theorem C2_reconcile_idempotent (parse : String → Option Book) (paths : List String)
    (db : List Book)
    (hpath : ∀ p b, parse p = some b → Sq.filePath b = p)
    (hdb : (db.map Book.id).Nodup)
    (hnew : ((Sq.refreshNew parse paths db).map Book.id).Nodup)
    (hfresh : ∀ n ∈ Sq.refreshNew parse paths db, ∀ r ∈ db, n.id ≠ r.id) :
    (∀ b ∈ db, (Sq.onDiskPaths paths).contains (Sq.filePath b) = true →
      b ∈ Sq.Refresh parse paths db) ∧
    (∀ b ∈ db, (Sq.onDiskPaths paths).contains (Sq.filePath b) = false →
      ∀ x ∈ Sq.Refresh parse paths db, x.id ≠ b.id) ∧
    (∀ n ∈ Sq.refreshNew parse paths db, n ∈ Sq.Refresh parse paths db) ∧
    Sq.Refresh parse paths (Sq.Refresh parse paths db) = Sq.Refresh parse paths db ∧
    (∀ st : Fs.State, Fs.Refresh parse paths (Fs.Refresh parse paths st) =
      Fs.Refresh parse paths st) := by
  have happ : (Sq.refreshNew parse paths db).foldl Sq.insertBook db =
      db ++ Sq.refreshNew parse paths db :=
    foldl_insertBook_eq_append _ _ hnew hfresh
  have hRdef : Sq.Refresh parse paths db =
      (db ++ Sq.refreshNew parse paths db).filter
        (fun b => !(Sq.refreshStaleIds paths db).contains b.id) := by
    unfold Sq.Refresh
    rw [happ]
  -- a db row with its file on disk is not scheduled stale
  have hnotstale : ∀ b ∈ db, (Sq.onDiskPaths paths).contains (Sq.filePath b) = true →
      (Sq.refreshStaleIds paths db).contains b.id = false := by
    intro b hb hdisk
    by_contra hcon
    have hmemid : b.id ∈ Sq.refreshStaleIds paths db := by
      rcases Bool.eq_false_or_eq_true ((Sq.refreshStaleIds paths db).contains b.id) with h | h
      · exact contains_iff.mp h
      · exact absurd h hcon
    obtain ⟨r, hr, hrid⟩ := List.mem_map.mp hmemid
    have hrdb : r ∈ db := (List.mem_filter.mp hr).1
    have hrstale := (List.mem_filter.mp hr).2
    have hrb : r = b := List.inj_on_of_nodup_map hdb hrdb hb hrid
    subst hrb
    rw [hdisk] at hrstale
    cases hrstale
  -- new books are never scheduled stale
  have hnewnotstale : ∀ n ∈ Sq.refreshNew parse paths db,
      (Sq.refreshStaleIds paths db).contains n.id = false := by
    intro n hn
    by_contra hcon
    have hmemid : n.id ∈ Sq.refreshStaleIds paths db := by
      rcases Bool.eq_false_or_eq_true ((Sq.refreshStaleIds paths db).contains n.id) with h | h
      · exact contains_iff.mp h
      · exact absurd h hcon
    obtain ⟨r, hr, hrid⟩ := List.mem_map.mp hmemid
    exact hfresh n hn r (List.mem_filter.mp hr).1 hrid.symm
  have hkept : ∀ b ∈ db, (Sq.onDiskPaths paths).contains (Sq.filePath b) = true →
      b ∈ Sq.Refresh parse paths db := by
    intro b hb hdisk
    rw [hRdef]
    apply List.mem_filter.mpr
    refine ⟨List.mem_append_left _ hb, ?_⟩
    rw [hnotstale b hb hdisk]
    rfl
  have hins : ∀ n ∈ Sq.refreshNew parse paths db, n ∈ Sq.Refresh parse paths db := by
    intro n hn
    rw [hRdef]
    apply List.mem_filter.mpr
    refine ⟨List.mem_append_right _ hn, ?_⟩
    rw [hnewnotstale n hn]
    rfl
  -- every surviving row's file is on disk
  have hondisk : ∀ b ∈ Sq.Refresh parse paths db,
      (Sq.onDiskPaths paths).contains (Sq.filePath b) = true := by
    intro b hb
    rw [hRdef] at hb
    have hbmem := (List.mem_filter.mp hb).1
    have hbsurv := (List.mem_filter.mp hb).2
    rcases List.mem_append.mp hbmem with hdbm | hnewm
    · by_contra hnd2
      have hdisk0 : (Sq.onDiskPaths paths).contains (Sq.filePath b) = false := by
        rcases Bool.eq_false_or_eq_true ((Sq.onDiskPaths paths).contains (Sq.filePath b))
          with h | h
        · exact absurd h hnd2
        · exact h
      have hbid : b.id ∈ Sq.refreshStaleIds paths db := by
        apply List.mem_map_of_mem
        apply List.mem_filter.mpr
        exact ⟨hdbm, by rw [hdisk0]; rfl⟩
      rw [contains_iff.mpr hbid] at hbsurv
      cases hbsurv
    · obtain ⟨p, hp, hpb⟩ := List.mem_filterMap.mp hnewm
      have hpd : p ∈ Sq.onDiskPaths paths := (List.mem_filter.mp hp).1
      rw [hpath p b hpb]
      exact contains_iff.mpr hpd
  -- every on-disk parseable path is recorded in the refreshed table
  have hcover : ∀ p ∈ Sq.onDiskPaths paths, ∀ b, parse p = some b →
      p ∈ (Sq.Refresh parse paths db).map Sq.filePath := by
    intro p hp b hpb
    by_cases hindb : (db.map Sq.filePath).contains p = true
    · obtain ⟨r, hr, hrp⟩ := List.mem_map.mp (contains_iff.mp hindb)
      have : r ∈ Sq.Refresh parse paths db := by
        apply hkept r hr
        rw [hrp]
        exact contains_iff.mpr hp
      exact List.mem_map.mpr ⟨r, this, hrp⟩
    · have hcontf : (db.map Sq.filePath).contains p = false := by
        rcases Bool.eq_false_or_eq_true ((db.map Sq.filePath).contains p) with h | h
        · exact absurd h hindb
        · exact h
      have hnmem : b ∈ Sq.refreshNew parse paths db := by
        apply List.mem_filterMap.mpr
        refine ⟨p, ?_, hpb⟩
        apply List.mem_filter.mpr
        exact ⟨hp, by rw [hcontf]; rfl⟩
      exact List.mem_map.mpr ⟨b, hins b hnmem, hpath p b hpb⟩
  refine ⟨hkept, ?_, hins, ?_, fun st => rfl⟩
  · intro b hb hdisk x hx hxid
    have hbid : b.id ∈ Sq.refreshStaleIds paths db := by
      apply List.mem_map_of_mem
      apply List.mem_filter.mpr
      exact ⟨hb, by rw [hdisk]; rfl⟩
    rw [hRdef] at hx
    have hxsurv := (List.mem_filter.mp hx).2
    rw [hxid, contains_iff.mpr hbid] at hxsurv
    cases hxsurv
  · -- second pass: nothing new, nothing stale
    have hnew2 : Sq.refreshNew parse paths (Sq.Refresh parse paths db) = [] := by
      apply List.filterMap_eq_nil.mpr
      intro p hp
      rcases hparse : parse p with _ | b
      · rfl
      · exfalso
        have hpd : p ∈ Sq.onDiskPaths paths := (List.mem_filter.mp hp).1
        have hnotin := (List.mem_filter.mp hp).2
        have hcov := hcover p hpd b hparse
        rw [contains_iff.mpr hcov] at hnotin
        cases hnotin
    have hstale2 : Sq.refreshStaleIds paths (Sq.Refresh parse paths db) = [] := by
      unfold Sq.refreshStaleIds
      have : (Sq.Refresh parse paths db).filter
          (fun b => !(Sq.onDiskPaths paths).contains (Sq.filePath b)) = [] := by
        apply List.filter_eq_nil.mpr
        intro b hb
        rw [hondisk b hb]
        simp
      rw [this]
      rfl
    have hstep : Sq.Refresh parse paths (Sq.Refresh parse paths db) =
        ((Sq.refreshNew parse paths (Sq.Refresh parse paths db)).foldl Sq.insertBook
          (Sq.Refresh parse paths db)).filter
          (fun b => !(Sq.refreshStaleIds paths (Sq.Refresh parse paths db)).contains b.id) :=
      rfl
    rw [hstep, hnew2, hstale2]
    simp [List.contains_nil]


/-- Witness for C2: a one-row table, one file kept and one new file. -/
theorem C2_reconcile_idempotent_witness :
    mkBook "old" "Old" 1 "" false [] ∈
      Sq.Refresh
        (fun p => if p = "/new.epub" then some (mkBook "new" "New" 2 "" false []) else none)
        ["/old.epub", "/new.epub"] [mkBook "old" "Old" 1 "" false []] ∧
    mkBook "new" "New" 2 "" false [] ∈
      Sq.Refresh
        (fun p => if p = "/new.epub" then some (mkBook "new" "New" 2 "" false []) else none)
        ["/old.epub", "/new.epub"] [mkBook "old" "Old" 1 "" false []] ∧
    Sq.Refresh
        (fun p => if p = "/new.epub" then some (mkBook "new" "New" 2 "" false []) else none)
        ["/old.epub", "/new.epub"]
        (Sq.Refresh
          (fun p => if p = "/new.epub" then some (mkBook "new" "New" 2 "" false []) else none)
          ["/old.epub", "/new.epub"] [mkBook "old" "Old" 1 "" false []]) =
      Sq.Refresh
        (fun p => if p = "/new.epub" then some (mkBook "new" "New" 2 "" false []) else none)
        ["/old.epub", "/new.epub"] [mkBook "old" "Old" 1 "" false []] := by
  have h := C2_reconcile_idempotent
    (fun p => if p = "/new.epub" then some (mkBook "new" "New" 2 "" false []) else none)
    ["/old.epub", "/new.epub"] [mkBook "old" "Old" 1 "" false []]
    (by
      intro p b hb
      by_cases hp : p = "/new.epub"
      · subst hp
        simp only [if_pos rfl] at hb
        cases hb
        rfl
      · simp only [if_neg hp] at hb
        cases hb)
    (by decide) (by decide) (by decide)
  exact ⟨h.1 (mkBook "old" "Old" 1 "" false []) (by decide) (by decide),
    h.2.2.1 (mkBook "new" "New" 2 "" false []) (by decide), h.2.2.2.1⟩


/-- A row without the column yields no value for it. -/
theorem rowVal_eq_none_of_notin (r : Mig.Row) (c : String)
    (h : ∀ cv ∈ r, cv.1 ≠ c) : Mig.rowVal r c = none := by
  induction r with
  | nil => rfl
  | cons x rest ih =>
    unfold Mig.rowVal
    simp only [List.find?]
    have hx : (x.1 == c) = false :=
      beq_eq_false_iff_ne.mpr (h x (List.mem_cons_self x rest))
    rw [hx]
    exact ih (fun cv hcv => h cv (List.mem_cons_of_mem _ hcv))

/-- Appending columns the lookup does not name leaves the lookup unchanged. -/
theorem rowVal_append_left (r e : Mig.Row) (c : String)
    (h : ∀ cv ∈ e, cv.1 ≠ c) : Mig.rowVal (r ++ e) c = Mig.rowVal r c := by
  induction r with
  | nil =>
    show Mig.rowVal e c = Mig.rowVal [] c
    rw [rowVal_eq_none_of_notin e c h]
    rfl
  | cons x rest ih =>
    unfold Mig.rowVal
    simp only [List.cons_append, List.find?]
    cases hx : (x.1 == c) with
    | false =>
      unfold Mig.rowVal at ih
      exact ih
    | true => rfl

/-- A lookup missing from the left part of an append falls through. -/
theorem rowVal_append_skip (r e : Mig.Row) (c : String)
    (h : ∀ cv ∈ r, cv.1 ≠ c) : Mig.rowVal (r ++ e) c = Mig.rowVal e c := by
  induction r with
  | nil => rfl
  | cons x rest ih =>
    unfold Mig.rowVal
    simp only [List.cons_append, List.find?]
    have hx : (x.1 == c) = false :=
      beq_eq_false_iff_ne.mpr (h x (List.mem_cons_self x rest))
    rw [hx]
    unfold Mig.rowVal at ih
    exact ih (fun cv hcv => h cv (List.mem_cons_of_mem _ hcv))

/-- Characterization of one additive column add: it extends the columns and
every row by the same (possibly empty) fresh suffix, the named column is
present afterwards, and a genuinely missing column is added with its
default. -/
theorem addCol_spec (t : Mig.Table) (c : String) (d : Mig.Val) :
    ∃ e : Mig.Row,
      (Mig.addColumnIgnoreDup t c d).cols = t.cols ++ e ∧
      (Mig.addColumnIgnoreDup t c d).rows = t.rows.map (fun r => r ++ e) ∧
      (∀ cv ∈ e, cv.1 ∉ t.cols.map Prod.fst) ∧
      c ∈ (Mig.addColumnIgnoreDup t c d).cols.map Prod.fst ∧
      (c ∉ t.cols.map Prod.fst → e = [(c, d)]) := by
  by_cases h : t.cols.any (fun x => x.1 == c) = true
  · refine ⟨[], ?_, ?_, ?_, ?_, ?_⟩
    · unfold Mig.addColumnIgnoreDup
      rw [if_pos h]
      simp
    · unfold Mig.addColumnIgnoreDup
      rw [if_pos h]
      simp
    · intro cv hcv
      cases hcv
    · obtain ⟨x, hx, hxc⟩ := List.any_eq_true.mp h
      unfold Mig.addColumnIgnoreDup
      rw [if_pos h]
      exact List.mem_map.mpr ⟨x, hx, beq_iff_eq.mp hxc⟩
    · intro hno
      exfalso
      obtain ⟨x, hx, hxc⟩ := List.any_eq_true.mp h
      exact hno (List.mem_map.mpr ⟨x, hx, beq_iff_eq.mp hxc⟩)
  · have hno : c ∉ t.cols.map Prod.fst := by
      intro hc
      obtain ⟨x, hx, hxc⟩ := List.mem_map.mp hc
      exact h (List.any_eq_true.mpr ⟨x, hx, beq_iff_eq.mpr hxc⟩)
    refine ⟨[(c, d)], ?_, ?_, ?_, ?_, fun _ => rfl⟩
    · unfold Mig.addColumnIgnoreDup
      rw [if_neg h]
    · unfold Mig.addColumnIgnoreDup
      rw [if_neg h]
    · intro cv hcv
      rw [List.mem_singleton.mp hcv]
      exact hno
    · unfold Mig.addColumnIgnoreDup
      rw [if_neg h]
      simp

/-- C6: opening the store reads the version pragma and applies the pending
migrations in order, advancing the version; afterwards the version is the
current value 1, and on a legacy version-0 database every pre-existing book
row survives with all its column values readable, the three late columns
present, and duplicate-column re-adds swallowed (a present column extends
nothing). -/
theorem C6_migration_legacy (db : Mig.DB) (t : Mig.Table)
    (hv : db.userVersion ≤ 1) (hb : db.books = some t)
    (hwf : ∀ r ∈ t.rows, ∀ cv ∈ r, (cv : String × Mig.Val).1 ∈ t.cols.map Prod.fst) :
    (Mig.migrateSchema db).userVersion = Mig.currentSchemaVersion ∧
    (db.userVersion = 0 →
      ∃ t' : Mig.Table, ∃ ext : Mig.Row,
        (Mig.migrateSchema db).books = some t' ∧
        t'.cols = t.cols ++ ext ∧
        t'.rows = t.rows.map (fun r => r ++ ext) ∧
        (∀ cv ∈ ext, cv.1 ∉ t.cols.map Prod.fst) ∧
        "added_at" ∈ t'.cols.map Prod.fst ∧
        "series_total" ∈ t'.cols.map Prod.fst ∧
        "rating" ∈ t'.cols.map Prod.fst ∧
        t'.rows.length = t.rows.length ∧
        (∀ r ∈ t.rows, ∀ c, c ∈ t.cols.map Prod.fst →
          Mig.rowVal (r ++ ext) c = Mig.rowVal r c) ∧
        ("added_at" ∉ t.cols.map Prod.fst →
          ∀ r ∈ t.rows, Mig.rowVal (r ++ ext) "added_at" = some (Mig.Val.int 0))) := by
  constructor
  · have hcase : db.userVersion = 0 ∨ db.userVersion = 1 := by omega
    rcases hcase with h0 | h1
    · simp [Mig.migrateSchema, Mig.schemaMigrations, h0, Mig.currentSchemaVersion]
    · simp [Mig.migrateSchema, Mig.schemaMigrations, h1, Mig.currentSchemaVersion]
  · intro hv0
    have hm1books : (Mig.migration1 db).books =
        some (Mig.addColumnIgnoreDup (Mig.addColumnIgnoreDup
          (Mig.addColumnIgnoreDup t "added_at" (.int 0))
          "series_total" (.text "")) "rating" (.int 0)) := by
      unfold Mig.migration1
      rw [hb]
      rfl
    have hms : (Mig.migrateSchema db).books = (Mig.migration1 db).books := by
      simp [Mig.migrateSchema, Mig.schemaMigrations, hv0]
    obtain ⟨e1, hc1, hr1, hf1, hm1a, hd1⟩ := addCol_spec t "added_at" (.int 0)
    obtain ⟨e2, hc2, hr2, hf2, hm2a, _⟩ :=
      addCol_spec (Mig.addColumnIgnoreDup t "added_at" (.int 0)) "series_total" (.text "")
    obtain ⟨e3, hc3, hr3, hf3, hm3a, _⟩ :=
      addCol_spec (Mig.addColumnIgnoreDup (Mig.addColumnIgnoreDup t "added_at" (.int 0))
        "series_total" (.text "")) "rating" (.int 0)
    refine ⟨_, e1 ++ (e2 ++ e3), hms.trans hm1books, ?_, ?_, ?_, ?_, ?_, ?_, ?_, ?_, ?_⟩
    · rw [hc3, hc2, hc1]
      simp [List.append_assoc]
    · rw [hr3, hr2, hr1, List.map_map, List.map_map]
      apply List.map_congr_left
      intro r _
      simp [List.append_assoc, Function.comp]
    · intro cv hcv
      rcases List.mem_append.mp hcv with h | h
      · exact hf1 cv h
      · rcases List.mem_append.mp h with h' | h'
        · intro hmem
          exact hf2 cv h' (by rw [hc1, List.map_append]; exact List.mem_append_left _ hmem)
        · intro hmem
          exact hf3 cv h'
            (by rw [hc2, hc1, List.map_append, List.map_append]
                exact List.mem_append_left _ (List.mem_append_left _ hmem))
    · rw [hc3, hc2, List.map_append, List.map_append]
      exact List.mem_append_left _ (List.mem_append_left _ hm1a)
    · rw [hc3, List.map_append]
      exact List.mem_append_left _ hm2a
    · exact hm3a
    · rw [hr3, hr2, hr1, List.map_map, List.map_map]
      simp
    · intro r _ c hc
      apply rowVal_append_left
      intro cv hcv
      intro hcc
      rcases List.mem_append.mp hcv with h | h
      · exact hf1 cv h (hcc ▸ hc)
      · rcases List.mem_append.mp h with h' | h'
        · exact hf2 cv h'
            (by rw [hc1, List.map_append]
                exact List.mem_append_left _ (hcc ▸ hc))
        · exact hf3 cv h'
            (by rw [hc2, hc1, List.map_append, List.map_append]
                exact List.mem_append_left _ (List.mem_append_left _ (hcc ▸ hc)))
    · intro hnocol r hr
      have hrskip : ∀ cv ∈ r, (cv : String × Mig.Val).1 ≠ "added_at" := by
        intro cv hcv hceq
        exact hnocol (hceq ▸ hwf r hr cv hcv)
      rw [rowVal_append_skip r _ _ hrskip, hd1 hnocol]
      simp [Mig.rowVal, List.find?]

/-- Witness for C6: a legacy version-0 database whose books table misses the
three late columns and holds one row keeps that row queryable. -/
theorem C6_migration_legacy_witness :
    (Mig.migrateSchema ⟨0, some ⟨[("id", .null), ("title", .text "")],
        [[("id", .text "b1"), ("title", .text "Old Book")]]⟩, none, none⟩).userVersion =
      Mig.currentSchemaVersion ∧
    Mig.rowVal ([("id", .text "b1"), ("title", .text "Old Book")] ++
        [("added_at", .int 0)] ++ ([("series_total", .text "")] ++ [("rating", .int 0)]))
      "title" = some (Mig.Val.text "Old Book") := by
  have h := C6_migration_legacy
    ⟨0, some ⟨[("id", .null), ("title", .text "")],
      [[("id", .text "b1"), ("title", .text "Old Book")]]⟩, none, none⟩
    ⟨[("id", .null), ("title", .text "")],
      [[("id", .text "b1"), ("title", .text "Old Book")]]⟩
    (by decide) rfl (by decide)
  refine ⟨h.1, ?_⟩
  decide


/-- decDigitsAux is fuel-irrelevant once the fuel exceeds the number. -/
theorem decDigitsAux_fuel (f1 : Nat) : ∀ (f2 n : Nat), n < f1 → n < f2 →
    decDigitsAux f1 n = decDigitsAux f2 n := by
  induction f1 with
  | zero => intro f2 n h1 _; omega
  | succ f ih =>
    intro f2 n h1 h2
    cases f2 with
    | zero => omega
    | succ g =>
      unfold decDigitsAux
      by_cases hn : n < 10
      · rw [if_pos hn, if_pos hn]
      · rw [if_neg hn, if_neg hn]
        have hdiv : n / 10 < n := by omega
        rw [ih g (n / 10) (by omega) (by omega)]

/-- One digit for numbers below ten. -/
theorem decDigits_small (n : Nat) (h : n < 10) :
    decDigits n = [Char.ofNat (48 + n)] := by
  unfold decDigits decDigitsAux
  rw [if_pos h]

/-- Peeling the least significant digit. -/
theorem decDigits_step (n : Nat) (h : 10 ≤ n) :
    decDigits n = decDigits (n / 10) ++ [Char.ofNat (48 + n % 10)] := by
  unfold decDigits
  conv =>
    lhs
    rw [decDigitsAux]
  rw [if_neg (by omega)]
  rw [decDigitsAux_fuel n (n / 10 + 1) (n / 10) (by omega) (by omega)]

/-- The character of a digit value is a decimal digit character. -/
theorem digitChar_isDigit (m : Nat) (h : m < 10) :
    isDigitC (Char.ofNat (48 + m)) = true := by
  interval_cases m <;> decide

/-- Every character decDigits produces is a decimal digit. -/
theorem decDigits_all_digits (n : Nat) : ∀ c ∈ decDigits n, isDigitC c = true := by
  induction n using Nat.strong_induction_on with
  | _ n ih =>
    by_cases hn : n < 10
    · rw [decDigits_small n hn]
      intro c hc
      rw [List.mem_singleton.mp hc]
      exact digitChar_isDigit n hn
    · rw [decDigits_step n (by omega)]
      intro c hc
      rcases List.mem_append.mp hc with h | h
      · exact ih (n / 10) (by omega) c h
      · rw [List.mem_singleton.mp h]
        exact digitChar_isDigit (n % 10) (by omega)

/-- At most two digits below one hundred. -/
theorem decDigits_len2 (n : Nat) (h : n < 100) : (decDigits n).length ≤ 2 := by
  by_cases hn : n < 10
  · rw [decDigits_small n hn]
    simp
  · rw [decDigits_step n (by omega), decDigits_small (n / 10) (by omega)]
    simp

/-- Exactly four digits for a four-digit year. -/
theorem decDigits_len4 (n : Nat) (h1 : 1000 ≤ n) (h2 : n < 10000) :
    (decDigits n).length = 4 := by
  rw [decDigits_step n (by omega), decDigits_step (n / 10) (by omega),
    decDigits_step (n / 10 / 10) (by omega), decDigits_small (n / 10 / 10 / 10) (by omega)]
  simp

/-- padNum produces only digit characters. -/
theorem padNum_digits (w n : Nat) : ∀ c ∈ padNum w n, isDigitC c = true := by
  intro c hc
  rcases List.mem_append.mp hc with h | h
  · rw [List.eq_of_mem_replicate h]
    decide
  · exact decDigits_all_digits n c h

/-- padNum has exactly the target width when the digits fit. -/
theorem padNum_length (w n : Nat) (h : (decDigits n).length ≤ w) :
    (padNum w n).length = w := by
  unfold padNum
  rw [List.length_append, List.length_replicate]
  omega

/-- Removing a duplicate-free list's prefix members from it leaves the rest. -/
theorem filter_not_contains_of_prefix {α : Type} [BEq α] [LawfulBEq α]
    (t d : List α) (hnd : (t ++ d).Nodup) :
    (t ++ d).filter (fun a => !t.contains a) = d := by
  rw [List.filter_append]
  have h1 : t.filter (fun a => !t.contains a) = [] := by
    apply List.filter_eq_nil.mpr
    intro a ha
    rw [contains_iff.mpr ha]
    decide
  have h2 : d.filter (fun a => !t.contains a) = d := by
    apply List.filter_eq_self.mpr
    intro a ha
    have hdisj : t.Disjoint d := (List.nodup_append.mp hnd).2.2
    have hnin : a ∉ t := fun hat => hdisj hat ha
    cases hc : t.contains a with
    | false => rfl
    | true => exact absurd (contains_iff.mp hc) hnin
  rw [h1, h2, List.nil_append]

/-- The prune step keeps (as a permutation) exactly the most recent `keep`
backup-named files of the name-sorted directory, and never touches files
that do not match the backup naming convention. -/
theorem pruneBackups_spec (dir : List String) (keep : Nat) (hnd : dir.Nodup) :
    ((pruneBackups dir keep).filter isBackupFile).Perm
      (((sortByKey String.data dir).filter isBackupFile).drop
        (((sortByKey String.data dir).filter isBackupFile).length - keep)) ∧
    (∀ f ∈ dir, isBackupFile f = false → f ∈ pruneBackups dir keep) := by
  have hperm : (sortByKey String.data dir).Perm dir := sortByKey_perm _ _
  have hsnd : (sortByKey String.data dir).Nodup := hperm.nodup_iff.mpr hnd
  set bk := (sortByKey String.data dir).filter isBackupFile with hbkdef
  have hbknd : bk.Nodup := List.Nodup.filter _ hsnd
  set old := bk.take (bk.length - keep) with holddef
  have hsplit : old ++ bk.drop (bk.length - keep) = bk :=
    List.take_append_drop _ bk
  by_cases hk : keep < bk.length
  · have hact : pruneBackups dir keep = dir.filter (fun f => !old.contains f) := by
      unfold pruneBackups
      rw [← hbkdef, if_pos hk, ← holddef]
    constructor
    · have e1 : (pruneBackups dir keep).filter isBackupFile =
          dir.filter (fun a => isBackupFile a && !old.contains a) := by
        rw [hact, List.filter_filter]
      have e2a : (sortByKey String.data dir).filter
            (fun a => isBackupFile a && !old.contains a) =
          bk.filter (fun a => !old.contains a) := by
        rw [hbkdef, List.filter_filter]
        exact List.filter_congr (fun a _ => Bool.and_comm _ _)
      have e2b : bk.filter (fun a => !old.contains a) = bk.drop (bk.length - keep) := by
        have h := filter_not_contains_of_prefix old (bk.drop (bk.length - keep))
          (by rw [hsplit]; exact hbknd)
        rw [hsplit] at h
        exact h
      rw [e1]
      exact ((List.Perm.filter _ hperm).symm).trans (by rw [e2a, e2b])
    · intro f hf hnb
      rw [hact]
      apply List.mem_filter.mpr
      refine ⟨hf, ?_⟩
      have hnin : f ∉ old := by
        intro hin
        have hfb := (List.mem_filter.mp (List.mem_of_mem_take hin)).2
        rw [hnb] at hfb
        cases hfb
      cases hc : old.contains f with
      | false => rfl
      | true => exact absurd (contains_iff.mp hc) hnin
  · have hact : pruneBackups dir keep = dir := by
      unfold pruneBackups
      rw [← hbkdef, if_neg hk]
    constructor
    · rw [hact]
      have hz : bk.length - keep = 0 := by omega
      rw [hz, List.drop_zero]
      exact (List.Perm.filter _ hperm).symm
    · intro f hf _
      rw [hact]
      exact hf


/-- C7: backup produces the timestamped snapshot name
catalog-YYYYMMDD-HHMMSS.db (local time), returns that path; with keep = K > 0
and a successful prune, at most K backup-named files remain and every
remaining one is among the most recent K in name order; a prune failure is
reported without failing the backup (the snapshot stays, the path is
returned); non-backup files are never touched. -/
theorem C7_backup (dir : List String) (keep : Int) (c : Clock) (pruneOk : Bool)
    (hnd : dir.Nodup)
    (hy1 : 1000 ≤ c.year) (hy2 : c.year < 10000)
    (hmo : c.month < 100) (hd : c.day < 100) (hh : c.hour < 100)
    (hmi : c.minute < 100) (hs : c.second < 100)
    (hfresh : backupName c ∉ dir) :
    (∃ d8 d6 : List Char, d8.length = 8 ∧ d6.length = 6 ∧
      allDigits d8 = true ∧ allDigits d6 = true ∧
      (backupName c).data = "catalog-".data ++ d8 ++ ['-'] ++ d6 ++ ".db".data) ∧
    (Backup dir keep c pruneOk).1.1 = backupName c ∧
    (0 < keep → pruneOk = false →
      (Backup dir keep c pruneOk).1.2.isSome = true ∧
      backupName c ∈ (Backup dir keep c pruneOk).2) ∧
    (0 < keep → pruneOk = true →
      ((Backup dir keep c pruneOk).2.filter isBackupFile).length ≤ keep.toNat ∧
      (∀ f ∈ (Backup dir keep c pruneOk).2, isBackupFile f = true →
        f ∈ (((sortByKey String.data (backupName c :: dir)).filter isBackupFile).drop
          (((sortByKey String.data (backupName c :: dir)).filter isBackupFile).length
            - keep.toNat)))) ∧
    (∀ f ∈ dir, isBackupFile f = false → f ∈ (Backup dir keep c pruneOk).2) := by
  have hnd1 : (backupName c :: dir).Nodup := List.nodup_cons.mpr ⟨hfresh, hnd⟩
  have hlen8 : (padNum 4 c.year ++ (padNum 2 c.month ++ padNum 2 c.day)).length = 8 := by
    rw [List.length_append, List.length_append,
      padNum_length 4 c.year (by rw [decDigits_len4 c.year hy1 hy2]),
      padNum_length 2 c.month (decDigits_len2 c.month hmo),
      padNum_length 2 c.day (decDigits_len2 c.day hd)]
  have hlen6 : (padNum 2 c.hour ++ (padNum 2 c.minute ++ padNum 2 c.second)).length = 6 := by
    rw [List.length_append, List.length_append,
      padNum_length 2 c.hour (decDigits_len2 c.hour hh),
      padNum_length 2 c.minute (decDigits_len2 c.minute hmi),
      padNum_length 2 c.second (decDigits_len2 c.second hs)]
  refine ⟨?_, ?_, ?_, ?_, ?_⟩
  · refine ⟨padNum 4 c.year ++ (padNum 2 c.month ++ padNum 2 c.day),
            padNum 2 c.hour ++ (padNum 2 c.minute ++ padNum 2 c.second),
            hlen8, hlen6, ?_, ?_, ?_⟩
    · apply List.all_eq_true.mpr
      intro x hx
      rcases List.mem_append.mp hx with h | h
      · exact padNum_digits 4 c.year x h
      · rcases List.mem_append.mp h with h' | h'
        · exact padNum_digits 2 c.month x h'
        · exact padNum_digits 2 c.day x h'
    · apply List.all_eq_true.mpr
      intro x hx
      rcases List.mem_append.mp hx with h | h
      · exact padNum_digits 2 c.hour x h
      · rcases List.mem_append.mp h with h' | h'
        · exact padNum_digits 2 c.minute x h'
        · exact padNum_digits 2 c.second x h'
    · show "catalog-".data ++ padNum 4 c.year ++ padNum 2 c.month ++ padNum 2 c.day
        ++ ['-'] ++ padNum 2 c.hour ++ padNum 2 c.minute ++ padNum 2 c.second
        ++ ".db".data = _
      simp [List.append_assoc]
  · unfold Backup
    rw [if_neg hfresh]
    by_cases hk : 0 < keep
    · rw [if_pos hk]
      cases pruneOk
      · rw [if_neg (by decide)]
      · rw [if_pos rfl]
    · rw [if_neg hk]
  · intro hk hpo
    subst hpo
    have hact : Backup dir keep c false =
        ((backupName c, some "prune backups"), backupName c :: dir) := by
      unfold Backup
      rw [if_neg hfresh, if_pos hk, if_neg (by decide)]
    rw [hact]
    exact ⟨rfl, List.mem_cons_self _ _⟩
  · intro hk hpo
    subst hpo
    have hact : Backup dir keep c true =
        ((backupName c, none), pruneBackups (backupName c :: dir) keep.toNat) := by
      unfold Backup
      rw [if_neg hfresh, if_pos hk, if_pos rfl]
    obtain ⟨hperm, _⟩ := pruneBackups_spec (backupName c :: dir) keep.toNat hnd1
    constructor
    · rw [hact]
      rw [hperm.length_eq, List.length_drop]
      omega
    · intro f hf hb
      rw [hact] at hf
      have : f ∈ (pruneBackups (backupName c :: dir) keep.toNat).filter isBackupFile :=
        List.mem_filter.mpr ⟨hf, hb⟩
      exact hperm.mem_iff.mp this
  · intro f hf hnb
    unfold Backup
    rw [if_neg hfresh]
    by_cases hk : 0 < keep
    · rw [if_pos hk]
      cases pruneOk
      · rw [if_neg (by decide)]
        exact List.mem_cons_of_mem _ hf
      · rw [if_pos rfl]
        exact (pruneBackups_spec (backupName c :: dir) keep.toNat hnd1).2 f
          (List.mem_cons_of_mem _ hf) hnb
    · rw [if_neg hk]
      exact List.mem_cons_of_mem _ hf

/-- Witness for C7: pruning a seeded backup directory with keep = 2 leaves
the newest two backups and the unrelated file. -/
theorem C7_backup_witness :
    (Backup ["catalog-20240101-000000.db", "catalog-20240102-000000.db",
        "catalog-20240103-000000.db", "catalog-20240104-000000.db", "notes.txt"]
      2 ⟨2024, 6, 1, 12, 30, 45⟩ true).1.1 = backupName ⟨2024, 6, 1, 12, 30, 45⟩ ∧
    ((Backup ["catalog-20240101-000000.db", "catalog-20240102-000000.db",
        "catalog-20240103-000000.db", "catalog-20240104-000000.db", "notes.txt"]
      2 ⟨2024, 6, 1, 12, 30, 45⟩ true).2.filter isBackupFile).length ≤ (2 : Int).toNat ∧
    (Backup ["catalog-20240101-000000.db", "catalog-20240102-000000.db",
        "catalog-20240103-000000.db", "catalog-20240104-000000.db", "notes.txt"]
      2 ⟨2024, 6, 1, 12, 30, 45⟩ true).2 =
      ["catalog-20240601-123045.db", "catalog-20240104-000000.db", "notes.txt"] := by
  have h := C7_backup ["catalog-20240101-000000.db", "catalog-20240102-000000.db",
      "catalog-20240103-000000.db", "catalog-20240104-000000.db", "notes.txt"]
    2 ⟨2024, 6, 1, 12, 30, 45⟩ true (by decide) (by decide) (by decide) (by decide)
    (by decide) (by decide) (by decide) (by decide) (by decide)
  exact ⟨h.2.1, (h.2.2.2.1 (by decide) rfl).1, by decide⟩


/-- Hex digits of nibbles are lowercase hex characters. -/
theorem hexChar_isLowerHex (n : Nat) (h : n < 16) : isLowerHex (hexChar n) = true := by
  interval_cases n <;> decide

/-- Both hex characters of a byte are lowercase hex characters. -/
theorem byteHex_isLowerHex (b : Nat) (hb : b < 256) :
    ∀ c ∈ byteHex b, isLowerHex c = true := by
  intro c hc
  unfold byteHex at hc
  rcases List.mem_cons.mp hc with h | h
  · rw [h]
    exact hexChar_isLowerHex (b / 16) (by omega)
  · rw [List.mem_singleton.mp h]
    exact hexChar_isLowerHex (b % 16) (by omega)

/-- The big-endian bytes of a word are bytes. -/
theorem wordBytes_lt (w : Nat) : ∀ b ∈ wordBytes w, b < 256 := by
  intro b hb
  simp [wordBytes] at hb
  omega

/-- A SHA-256 digest is 32 bytes long. -/
theorem sha256_length (msg : List Nat) : (sha256 msg).length = 32 := by
  unfold sha256
  simp [wordBytes]

/-- Every SHA-256 digest entry is a byte. -/
theorem sha256_bytes_lt (msg : List Nat) : ∀ b ∈ sha256 msg, b < 256 := by
  intro b hb
  unfold sha256 at hb
  simp [wordBytes] at hb
  omega

/-- Hex encoding doubles the length. -/
theorem flatMap_byteHex_length (bs : List Nat) :
    (bs.flatMap byteHex).length = 2 * bs.length := by
  induction bs with
  | nil => rfl
  | cons b t ih =>
    rw [List.flatMap_cons, List.length_append, ih]
    simp [byteHex]
    omega

/-- Length of the hex string of a byte list. -/
theorem hexStr_length (bs : List Nat) : (hexStr bs).length = 2 * bs.length := by
  have h : (hexStr bs).length = (bs.flatMap byteHex).length := rfl
  rw [h, flatMap_byteHex_length]

/-- Every character of the hex string of a byte list is lowercase hex. -/
theorem hexStr_chars (bs : List Nat) (hb : ∀ b ∈ bs, b < 256) :
    ∀ c ∈ (hexStr bs).data, isLowerHex c = true := by
  intro c hc
  have hmem : c ∈ bs.flatMap byteHex := hc
  obtain ⟨b, hbmem, hcb⟩ := List.mem_flatMap.mp hmem
  exact byteHex_isLowerHex b (hb b hbmem) c hcb

set_option maxRecDepth 100000 in
set_option maxHeartbeats 2000000 in
theorem pathToID_testPaths_eval : testPaths.map PathToID = testIDs := by
  rfl

/-- C8: PathToID is exactly the lowercase-hex encoding of the first 8 bytes
of the SHA-256 digest of the path bytes, always 16 lowercase hexadecimal
characters; it is a pure function; and on a hundred distinct concrete
library paths it produces a hundred distinct ids (no collisions). -/
theorem C8_pathToID_hash (p q : String) (hpq : p = q) :
    PathToID p = PathToID q ∧
    PathToID p = hexStr ((sha256 (utf8Bytes p)).take 8) ∧
    (PathToID p).length = 16 ∧
    (∀ ch ∈ (PathToID p).data, isLowerHex ch = true) ∧
    testPaths.Nodup ∧ (testPaths.map PathToID).Nodup := by
  refine ⟨by rw [hpq], rfl, ?_, ?_, by decide, ?_⟩
  · show (hexStr ((sha256 (utf8Bytes p)).take 8)).length = 16
    rw [hexStr_length, List.length_take, sha256_length]
    norm_num
  · intro ch hch
    exact hexStr_chars _
      (fun b hb => sha256_bytes_lt (utf8Bytes p) b (List.mem_of_mem_take hb)) ch hch
  · rw [pathToID_testPaths_eval]
    decide

/-- Witness for C8 at a concrete path. -/
theorem C8_pathToID_hash_witness :
    PathToID "/books/0.epub" = "18dc94a0b8c49a5a" ∧
    (PathToID "/books/0.epub").length = 16 ∧
    (testPaths.map PathToID).Nodup :=
  ⟨by rfl,
   (C8_pathToID_hash "/books/0.epub" "/books/0.epub" rfl).2.2.1,
   (C8_pathToID_hash "/books/0.epub" "/books/0.epub" rfl).2.2.2.2.2⟩

end NxtOpds
